import Mathlib

/-!
# Verification of the flowchart editor's interactive diagram engine

A shallow embedding of the flowchart editor core (`FlowEditor.vue`):
the geometry kernel (shape boundary points, ray/segment intersection,
edge path derivation), the snapshot-based undo/redo history, clipboard
copy/paste with id remapping, group dragging with snapping, topological
auto-layout, and the selection state machine.

Modelling conventions:
* JavaScript numbers are modelled exactly: the geometry kernel (which uses
  `Math.sqrt` / `Math.hypot`) is embedded over `ℝ`; the editor state machine
  (which only uses field arithmetic and `Math.round`) is embedded over `ℚ`
  so that it stays executable.
* Node and edge ids are opaque strings produced by the external id
  generator `store.generateId` (prefix plus timestamp plus randomness;
  uniqueness is the generator's contract per the spec).  The generator is
  modelled as a function `gen : String → Nat → String` from a prefix and a
  counter value to an id, the counter being threaded through the state.
* `JSON.parse(JSON.stringify(..))` deep copies are the identity on our
  immutable values, so a history snapshot is simply the value of the
  diagram at commit time.
* Optional JS fields (`bendX?`, `lineWidth?`, ...) are `Option` fields.
-/

/-- The five flowchart node kinds (`FlowNodeType` in `stores/project.ts`;
the type declaration itself is part of the store, its shape is fixed by the
spec's data model section and by every use site in the editor). -/
inductive FlowNodeType where
  | start
  | process
  | decision
  | io
  | «end»
deriving DecidableEq, Repr

/-- A flowchart node: centre coordinates `x, y` and extents `width, height`
(the `FlowNode` interface).  The coordinate field type `α` is `ℝ` for the
geometry kernel and `ℚ` for the executable editor model. -/
structure FlowNode (α : Type) where
  id : String
  type : FlowNodeType
  text : String
  x : α
  y : α
  width : α
  height : α
deriving DecidableEq, Repr

/-- A flowchart edge (the `FlowEdge` interface): endpoint node-id
references, an optional explicit bend point and optional style fields. -/
structure FlowEdge (α : Type) where
  id : String
  sourceId : String
  targetId : String
  label : Option String := none
  labelColor : Option String := none
  labelFontSize : Option α := none
  labelBold : Option Bool := none
  lineStyle : Option String := none
  lineColor : Option String := none
  lineWidth : Option α := none
  bendX : Option α := none
  bendY : Option α := none
deriving DecidableEq, Repr

/-- A history snapshot: a deep copy of the `{nodes, edges}` pair
(`DiagramSnapshot`). -/
structure DiagramSnapshot (α : Type) where
  nodes : List (FlowNode α)
  edges : List (FlowEdge α)
deriving DecidableEq, Repr

/-- `nodes.find((n) => n.id === id)`: first node with the given id. -/
def findNode {α : Type} : List (FlowNode α) → String → Option (FlowNode α)
  | [], _ => none
  | n :: rest, i => if n.id = i then some n else findNode rest i

/-! ## Geometry kernel (over `ℝ`) -/

noncomputable section Geometry

/-- `Math.hypot(a, b)`. -/
def hypot (a b : ℝ) : ℝ := Real.sqrt (a ^ 2 + b ^ 2)

/-- `raySegmentIntersection(ox, oy, dx, dy, ax, ay, bx, by)`: intersection of
the ray from `(ox,oy)` in direction `(dx,dy)` with the segment from
`(ax,ay)` to `(bx,by)`; `none` when the ray is (near-)parallel to the
segment (`|cross| < 1e-7`) or the parameters fall outside the ray/segment.
Returns the hit point together with the ray parameter `t`. -/
def raySegmentIntersection (ox oy dx dy ax ay bx by' : ℝ) : Option (ℝ × ℝ × ℝ) :=
  let sx := bx - ax
  let sy := by' - ay
  let cross := dx * sy - dy * sx
  if |cross| < 1e-7 then none
  else
    let qpx := ax - ox
    let qpy := ay - oy
    let t := (qpx * sy - qpy * sx) / cross
    let u := (qpx * dy - qpy * dx) / cross
    if 0 ≤ t ∧ 0 ≤ u ∧ u ≤ 1 then some (ox + dx * t, oy + dy * t, t) else none

/-- The io shape's four boundary segments, in the loop order of the source
(`points[i]` to `points[(i+1) % 4]`, slant constant `20`). -/
def ioSegs (n : FlowNode ℝ) : List ((ℝ × ℝ) × (ℝ × ℝ)) :=
  let hw := n.width / 2
  let hh := n.height / 2
  let p0 : ℝ × ℝ := (n.x - hw + 20, n.y - hh)
  let p1 : ℝ × ℝ := (n.x + hw, n.y - hh)
  let p2 : ℝ × ℝ := (n.x + hw - 20, n.y + hh)
  let p3 : ℝ × ℝ := (n.x - hw, n.y + hh)
  [(p0, p1), (p1, p2), (p2, p3), (p3, p0)]

/-- The io branch's loop over the four segments, keeping the hit with the
smallest ray parameter (strict `<`, so the earliest such hit wins ties). -/
def bestHit (ox oy dx dy : ℝ) (segs : List ((ℝ × ℝ) × (ℝ × ℝ))) : Option (ℝ × ℝ × ℝ) :=
  segs.foldl
    (fun best s =>
      match raySegmentIntersection ox oy dx dy s.1.1 s.1.2 s.2.1 s.2.2 with
      | some hit =>
        match best with
        | none => some hit
        | some b => if hit.2.2 < b.2.2 then some hit else some b
      | none => best)
    none

/-- The closed-form rectangle boundary point (the shared fall-through at the
end of `nodeBoundaryPoint`).  The source sets a component's scale factor to
`Number.POSITIVE_INFINITY` when that direction component is below `1e-7` and
takes the `min`; since `ℝ` has no infinity this is written as the equivalent
conditional (both components cannot be degenerate for a unit direction). -/
def rectPoint (n : FlowNode ℝ) (dx dy : ℝ) : ℝ × ℝ :=
  let hw := n.width / 2
  let hh := n.height / 2
  let t := if |dx| < 1e-7 then hh / |dy|
           else if |dy| < 1e-7 then hw / |dx|
           else min (hw / |dx|) (hh / |dy|)
  (n.x + dx * t, n.y + dy * t)

/-- The body of `nodeBoundaryPoint` after direction normalisation: `dx, dy`
is the unit direction from the node centre toward the target point. -/
def boundaryCore (n : FlowNode ℝ) (dx dy : ℝ) : ℝ × ℝ :=
  let hw := n.width / 2
  let hh := n.height / 2
  match n.type with
  | .start | .«end» =>
    -- Ellipse boundary intersection
    let d := (dx * dx) / (hw * hw) + (dy * dy) / (hh * hh)
    let t := if 0 < d then 1 / Real.sqrt d else 0
    (n.x + dx * t, n.y + dy * t)
  | .decision =>
    -- Diamond boundary: |x/hw| + |y/hh| = 1
    let d := |dx| / hw + |dy| / hh
    let t := if 0 < d then 1 / d else 0
    (n.x + dx * t, n.y + dy * t)
  | .io =>
    match bestHit n.x n.y dx dy (ioSegs n) with
    | some hit => (hit.1, hit.2.1)
    | none => rectPoint n dx dy
  | .process => rectPoint n dx dy

/-- `nodeBoundaryPoint(node, towardX, towardY)`: the point where the ray
from the node centre toward `(towardX, towardY)` meets the node's outline;
the centre itself when the target is within `1e-6` of the centre. -/
def nodeBoundaryPoint (n : FlowNode ℝ) (towardX towardY : ℝ) : ℝ × ℝ :=
  let vx := towardX - n.x
  let vy := towardY - n.y
  let len := hypot vx vy
  if len < 1e-6 then (n.x, n.y)
  else boundaryCore n (vx / len) (vy / len)

/-- `pushPointOutward(point, towardX, towardY, distance)`: move `point` by
`distance` units along the direction toward `(towardX, towardY)`; unchanged
when the target is within `1e-6` of the point. -/
def pushPointOutward (p : ℝ × ℝ) (towardX towardY distance : ℝ) : ℝ × ℝ :=
  let dx := towardX - p.1
  let dy := towardY - p.2
  let len := hypot dx dy
  if len < 1e-6 then p
  else (p.1 + dx / len * distance, p.2 + dy / len * distance)

/-- `pointToSegmentDistance(px, py, x1, y1, x2, y2)`: distance from a point
to a segment via clamped projection. -/
def pointToSegmentDistance (px py x1 y1 x2 y2 : ℝ) : ℝ :=
  let A := px - x1
  let B := py - y1
  let C := x2 - x1
  let D := y2 - y1
  let dot := A * C + B * D
  let lenSq := C * C + D * D
  let t := if lenSq = 0 then 0 else max 0 (min 1 (dot / lenSq))
  let ex := x1 + t * C
  let ey := y1 + t * D
  hypot (px - ex) (py - ey)

/-- An edge's resolved three-point path: source point, bend point, target
point (the `EdgePath` record's `(sx,sy)`, `(bx,by)`, `(tx,ty)`). -/
structure PathPts where
  s : ℝ × ℝ
  b : ℝ × ℝ
  t : ℝ × ℝ

/-- `edgePath(edge)`: `none` when either endpoint node is missing;
otherwise the two-pass bend resolution: a provisional boundary point of
each node toward the (stored or centre-midpoint) bend, then — when no bend
is stored — the final bend is the midpoint of the two provisional boundary
points, and each final boundary point is pushed `2` units toward the bend. -/
def edgePath (nodes : List (FlowNode ℝ)) (edge : FlowEdge ℝ) : Option PathPts :=
  match findNode nodes edge.sourceId, findNode nodes edge.targetId with
  | some source, some target =>
    let rawBx := edge.bendX.getD ((source.x + target.x) / 2)
    let rawBy := edge.bendY.getD ((source.y + target.y) / 2)
    let preS := nodeBoundaryPoint source rawBx rawBy
    let preT := nodeBoundaryPoint target rawBx rawBy
    let bx := edge.bendX.getD ((preS.1 + preT.1) / 2)
    let bY := edge.bendY.getD ((preS.2 + preT.2) / 2)
    let s := pushPointOutward (nodeBoundaryPoint source bx bY) bx bY 2
    let t := pushPointOutward (nodeBoundaryPoint target bx bY) bx bY 2
    some ⟨s, (bx, bY), t⟩
  | _, _ => none

open Classical in
/-- The loop body of `getEdgeAt`, written over the edge list already in
top-most-first order (the source iterates the edge array backwards). -/
def getEdgeAtRev (nodes : List (FlowNode ℝ)) (x y hitDistance : ℝ) :
    List (FlowEdge ℝ) → Option (FlowEdge ℝ)
  | [] => none
  | e :: rest =>
    match edgePath nodes e with
    | none => getEdgeAtRev nodes x y hitDistance rest
    | some p =>
      let d1 := pointToSegmentDistance x y p.s.1 p.s.2 p.b.1 p.b.2
      let d2 := pointToSegmentDistance x y p.b.1 p.b.2 p.t.1 p.t.2
      if min d1 d2 ≤ hitDistance then some e else getEdgeAtRev nodes x y hitDistance rest

/-- `getEdgeAt(x, y)`: top-most edge within `8/scale` of either path
segment; edges whose path is `null` are skipped. -/
def getEdgeAt (nodes : List (FlowNode ℝ)) (edges : List (FlowEdge ℝ)) (x y scale : ℝ) :
    Option (FlowEdge ℝ) :=
  getEdgeAtRev nodes x y (8 / scale) edges.reverse

open Classical in
/-- The loop body of `getBendHandleEdgeAt`, over the reversed edge list. -/
def getBendHandleEdgeAtRev (nodes : List (FlowNode ℝ)) (x y radius : ℝ) :
    List (FlowEdge ℝ) → Option (FlowEdge ℝ)
  | [] => none
  | e :: rest =>
    match edgePath nodes e with
    | none => getBendHandleEdgeAtRev nodes x y radius rest
    | some p =>
      if hypot (x - p.b.1) (y - p.b.2) ≤ radius then some e
      else getBendHandleEdgeAtRev nodes x y radius rest

/-- `getBendHandleEdgeAt(x, y)`: top-most edge whose bend handle (radius
`10/scale`) contains the point; edges whose path is `null` are skipped. -/
def getBendHandleEdgeAt (nodes : List (FlowNode ℝ)) (edges : List (FlowEdge ℝ))
    (x y scale : ℝ) : Option (FlowEdge ℝ) :=
  getBendHandleEdgeAtRev nodes x y (10 / scale) edges.reverse

end Geometry

/-! ## Editor state and history (over `ℚ`, executable) -/

/-- Association-list lookup, modelling `Map.get` for maps built with
`Map.set` modelled as prepending (so the most recent binding wins). -/
def getA {α : Type} : List (String × α) → String → Option α
  | [], _ => none
  | (k, v) :: rest, key => if key = k then some v else getA rest key

/-- `Map.set` modelled as prepending the new binding. -/
def setA {α : Type} (m : List (String × α)) (k : String) (v : α) : List (String × α) :=
  (k, v) :: m

/-- JS `o || d` for an optional string field: `undefined` and the empty
string are falsy. -/
def orDefaultS (o : Option String) (d : String) : String :=
  match o with
  | some s => if s = "" then d else s
  | none => d

/-- JS `o || d` for an optional numeric field: `undefined` and `0` are
falsy. -/
def orDefaultQ (o : Option ℚ) (d : ℚ) : ℚ :=
  match o with
  | some q => if q = 0 then d else q
  | none => d

/-- `ensureEdgeDefaults(edge)`: idempotently fill unset (or falsy) style
fields with the fixed defaults. -/
def ensureEdgeDefaults (e : FlowEdge ℚ) : FlowEdge ℚ :=
  { e with
    lineStyle := some (orDefaultS e.lineStyle "solid")
    lineColor := some (orDefaultS e.lineColor "#334155")
    lineWidth := some (orDefaultQ e.lineWidth (14/10))
    labelColor := some (orDefaultS e.labelColor "#94a3b8")
    labelFontSize := some (orDefaultQ e.labelFontSize 12)
    labelBold := some (e.labelBold.getD false) }

/-- The flowchart editor's reactive state: the live diagram, the selection
state, the clipboard and paste counter, the snapshot history, and the
abstract id-generator counter (see the module comment). -/
structure EditorState where
  nodes : List (FlowNode ℚ)
  edges : List (FlowEdge ℚ)
  selectedNodeId : String := ""
  selectedNodeIds : List String := []
  selectedEdgeId : String := ""
  connectFromId : String := ""
  clipboardData : Option (DiagramSnapshot ℚ) := none
  pasteCount : Nat := 0
  history : List (DiagramSnapshot ℚ) := []
  historyIndex : Int := -1
  historyReady : Bool := false
  nextId : Nat := 0
deriving DecidableEq

/-- `cloneDiagram()`: a (deep-copied) snapshot of the live diagram. -/
def cloneDiagram (s : EditorState) : DiagramSnapshot ℚ := ⟨s.nodes, s.edges⟩

/-- `setSingleNodeSelection(id)`. -/
def setSingleNodeSelection (i : String) (s : EditorState) : EditorState :=
  { s with selectedNodeId := i, selectedNodeIds := [i], selectedEdgeId := "" }

/-- `setNodeSelection(ids)` (`selectedNodeId` becomes `ids[0] || ''`). -/
def setNodeSelection (ids : List String) (s : EditorState) : EditorState :=
  { s with selectedNodeIds := ids, selectedNodeId := ids.headD "", selectedEdgeId := "" }

/-- `toggleNodeSelection(id)`. -/
def toggleNodeSelection (i : String) (s : EditorState) : EditorState :=
  if i ∈ s.selectedNodeIds then
    setNodeSelection (s.selectedNodeIds.filter (fun n => n ≠ i)) s
  else
    setNodeSelection (s.selectedNodeIds ++ [i]) s

/-- `resetHistory()`: reinitialise to a single snapshot of the current
diagram at index `0`. -/
def resetHistory (s : EditorState) : EditorState :=
  { s with history := [cloneDiagram s], historyIndex := 0, historyReady := true }

/-- `commitHistory()`: no-op until `resetHistory` has run; otherwise drop
the snapshots after the current index, append a snapshot of the current
diagram, cap the list at `80` by shifting off the oldest, and point the
index at the new last entry. -/
def commitHistory (s : EditorState) : EditorState :=
  if s.historyReady then
    let snap := cloneDiagram s
    let h1 := s.history.take (s.historyIndex + 1).toNat ++ [snap]
    let h2 := if 80 < h1.length then h1.drop 1 else h1
    { s with history := h2, historyIndex := (h2.length : Int) - 1 }
  else s

/-- `applySnapshot(snapshot)`: replace the live diagram with a deep copy of
the snapshot and clear all selection / connect state. -/
def applySnapshot (snap : DiagramSnapshot ℚ) (s : EditorState) : EditorState :=
  { s with nodes := snap.nodes, edges := snap.edges,
           selectedNodeId := "", selectedNodeIds := [],
           selectedEdgeId := "", connectFromId := "" }

/-- `canUndo`: the index is strictly positive. -/
def canUndo (s : EditorState) : Prop := 0 < s.historyIndex

/-- `canRedo`: the index is in range and not at the last entry. -/
def canRedo (s : EditorState) : Prop :=
  0 ≤ s.historyIndex ∧ s.historyIndex < (s.history.length : Int) - 1

instance (s : EditorState) : Decidable (canUndo s) := by unfold canUndo; infer_instance

instance (s : EditorState) : Decidable (canRedo s) := by unfold canRedo; infer_instance

/-- `undo()`: when `canUndo`, decrement the index and apply that snapshot. -/
def undo (s : EditorState) : EditorState :=
  if canUndo s then
    let i := s.historyIndex - 1
    applySnapshot (s.history.getD i.toNat ⟨[], []⟩) { s with historyIndex := i }
  else s

/-- `redo()`: when `canRedo`, increment the index and apply that snapshot. -/
def redo (s : EditorState) : EditorState :=
  if canRedo s then
    let i := s.historyIndex + 1
    applySnapshot (s.history.getD i.toNat ⟨[], []⟩) { s with historyIndex := i }
  else s

/-- `selectedNode` (computed): the node the single-selection id refers to. -/
def selectedNode (s : EditorState) : Option (FlowNode ℚ) :=
  findNode s.nodes s.selectedNodeId

/-- `selectedEdge` (computed): the edge the selected-edge id refers to. -/
def selectedEdge (s : EditorState) : Option (FlowEdge ℚ) :=
  s.edges.find? (fun e => e.id == s.selectedEdgeId)

/-- `copySelected()`: snapshot the selected nodes (falling back to the
single selected node) and every edge with both endpoints selected into the
clipboard; reset the paste counter.  Does not touch history. -/
def copySelected (s : EditorState) : EditorState :=
  let ids : List String :=
    if s.selectedNodeIds.length > 0 then s.selectedNodeIds
    else match selectedNode s with
         | some n => [n.id]
         | none => []
  if ids.length = 0 then s
  else
    let clipNodes := s.nodes.filter (fun n => n.id ∈ ids)
    let clipEdges := s.edges.filter (fun e => e.sourceId ∈ ids ∧ e.targetId ∈ ids)
    { s with clipboardData := some ⟨clipNodes, clipEdges⟩, pasteCount := 0 }

/-- The node-processing pass of `pasteClipboard`: fresh ids from the
generator counter, the diagonal offset applied to each node, and the
old-id → new-id substitution table built during the same pass.  Returns the
pasted nodes, the table and the advanced counter. -/
def pasteNodesAux (gen : String → Nat → String) (off : ℚ) :
    List (FlowNode ℚ) → Nat → List (FlowNode ℚ) × List (String × String) × Nat
  | [], c => ([], [], c)
  | n :: rest, c =>
    let nid := gen "node" c
    let (ns, m, c') := pasteNodesAux gen off rest (c + 1)
    ({ n with id := nid, x := n.x + off, y := n.y + off } :: ns, (n.id, nid) :: m, c')

/-- The edge-processing pass of `pasteClipboard`: remap both endpoints
through the substitution table (dropping the edge when either is missing —
the JS falsy test also drops an empty-string id), give the kept edge a
fresh id, normalise its style fields and offset any explicit bend. -/
def pasteEdgesAux (gen : String → Nat → String) (off : ℚ) (m : List (String × String)) :
    List (FlowEdge ℚ) → Nat → List (FlowEdge ℚ) × Nat
  | [], c => ([], c)
  | e :: rest, c =>
    match getA m e.sourceId, getA m e.targetId with
    | some s', some t' =>
      if s' = "" ∨ t' = "" then pasteEdgesAux gen off m rest c
      else
        let (es, c') := pasteEdgesAux gen off m rest (c + 1)
        ({ e with id := gen "edge" c, sourceId := s', targetId := t',
                  labelColor := some (orDefaultS e.labelColor "#94a3b8"),
                  labelFontSize := some (orDefaultQ e.labelFontSize 12),
                  labelBold := some (e.labelBold.getD false),
                  lineStyle := some (orDefaultS e.lineStyle "solid"),
                  lineColor := some (orDefaultS e.lineColor "#334155"),
                  lineWidth := some (orDefaultQ e.lineWidth (14/10)),
                  bendX := e.bendX.map (· + off),
                  bendY := e.bendY.map (· + off) } :: es, c')
    | _, _ => pasteEdgesAux gen off m rest c

/-- `pasteClipboard()`: no-op on an empty clipboard; otherwise bump the
paste counter, offset everything by `28 * pasteCount`, remap ids, append
the pasted nodes and edges, select the pasted nodes, and commit once. -/
def pasteClipboard (gen : String → Nat → String) (s : EditorState) : EditorState :=
  match s.clipboardData with
  | none => s
  | some clip =>
    if clip.nodes.length = 0 then s
    else
      let pc := s.pasteCount + 1
      let off : ℚ := 28 * pc
      let (nextNodes, idMap, c1) := pasteNodesAux gen off clip.nodes s.nextId
      let (nextEdges, c2) := pasteEdgesAux gen off idMap clip.edges c1
      let s1 := { s with nodes := s.nodes ++ nextNodes, edges := s.edges ++ nextEdges,
                         pasteCount := pc, nextId := c2 }
      let s2 := setNodeSelection (nextNodes.map (·.id)) s1
      commitHistory { s2 with selectedEdgeId := "", connectFromId := "" }

/-- `deleteSelected()`: delete all selected nodes together with every edge
touching one of them, or else the selected edge; then commit. -/
def deleteSelected (s : EditorState) : EditorState :=
  if s.selectedNodeIds.length > 0 then
    let ids := s.selectedNodeIds
    let nodes' := s.nodes.filter (fun n => n.id ∉ ids)
    let edges' := s.edges.filter (fun e => e.sourceId ∉ ids ∧ e.targetId ∉ ids)
    commitHistory { s with nodes := nodes', edges := edges',
                           selectedNodeId := "", selectedNodeIds := [] }
  else
    match selectedEdge s with
    | some e =>
      commitHistory { s with edges := s.edges.filter (fun e' => e'.id ≠ e.id),
                             selectedEdgeId := "" }
    | none => s

/-- `nodeSize(type)`: default width/height per node kind. -/
def nodeSize (t : FlowNodeType) : ℚ × ℚ :=
  match t with
  | .decision => (140, 90)
  | .io => (150, 70)
  | _ => (140, 64)

/-- `defaultText(type)`. -/
def defaultText (t : FlowNodeType) : String :=
  match t with
  | .start => "开始"
  | .process => "处理步骤"
  | .decision => "条件判断"
  | .io => "输入/输出"
  | .«end» => "结束"

/-- `createNode(type, x, y)`: append a node of the kind's default size at
the click point, select it alone, commit. -/
def createNode (gen : String → Nat → String) (t : FlowNodeType) (x y : ℚ)
    (s : EditorState) : EditorState :=
  let (w, h) := nodeSize t
  let node : FlowNode ℚ :=
    { id := gen "node" s.nextId, type := t, text := defaultText t,
      x := x, y := y, width := w, height := h }
  commitHistory (setSingleNodeSelection node.id
    { s with nodes := s.nodes ++ [node], nextId := s.nextId + 1 })

/-- The connect-tool click on a node (`onMouseDown`, `tool = connect`):
first click records the connect source and selects it; a second click on a
different node appends a new edge with the default style and clears all
selection and connect state, committing once; clicking the source again is
a no-op. -/
def connectClick (gen : String → Nat → String) (nid : String) (s : EditorState) :
    EditorState :=
  if s.connectFromId = "" then
    setSingleNodeSelection nid { s with connectFromId := nid }
  else if s.connectFromId ≠ nid then
    let e : FlowEdge ℚ :=
      { id := gen "edge" s.nextId, sourceId := s.connectFromId, targetId := nid,
        label := some "", labelColor := some "#94a3b8", labelFontSize := some 12,
        labelBold := some false, lineStyle := some "solid",
        lineColor := some "#334155", lineWidth := some (14/10) }
    commitHistory
      { s with edges := s.edges ++ [e], nextId := s.nextId + 1,
               connectFromId := "", selectedNodeId := "", selectedNodeIds := [],
               selectedEdgeId := "" }
  else s

/-- The bend-handle hit branch of `onMouseDown`: normalise the edge's style
defaults, select the edge and clear the node selection (the transient
`draggingBendEdgeId` bookkeeping is not part of the persistent state we
model). -/
def bendHandleSelect (eid : String) (s : EditorState) : EditorState :=
  { s with edges := s.edges.map (fun e => if e.id = eid then ensureEdgeDefaults e else e),
           selectedEdgeId := eid, selectedNodeId := "", selectedNodeIds := [] }

/-- The plain edge hit branch of `onMouseDown`: select the edge, clear the
node selection. -/
def edgeSelect (eid : String) (s : EditorState) : EditorState :=
  { s with edges := s.edges.map (fun e => if e.id = eid then ensureEdgeDefaults e else e),
           selectedEdgeId := eid, selectedNodeId := "", selectedNodeIds := [] }

/-- The node hit branch of `onMouseDown` without shift: keep a
multi-selection the node already belongs to (making it the active node),
otherwise collapse the selection to this node; either way the edge
selection is cleared. -/
def nodeClick (nid : String) (s : EditorState) : EditorState :=
  if nid ∈ s.selectedNodeIds then
    { s with selectedNodeId := nid, selectedEdgeId := "" }
  else setSingleNodeSelection nid s

/-- The empty-canvas click without shift (pan start): clear all selection. -/
def emptyCanvasClick (s : EditorState) : EditorState :=
  { s with selectedNodeId := "", selectedNodeIds := [], selectedEdgeId := "" }

/-- The marquee start (`shift` on empty canvas) clears the edge selection. -/
def marqueeStart (s : EditorState) : EditorState :=
  { s with selectedEdgeId := "" }

/-- `nodeIntersectsRect(node, rect)`: axis-aligned bounding-box overlap. -/
def nodeIntersectsRect (n : FlowNode ℚ) (x1 y1 x2 y2 : ℚ) : Bool :=
  !(decide (n.x + n.width / 2 < x1) || decide (n.x - n.width / 2 > x2) ||
    decide (n.y + n.height / 2 < y1) || decide (n.y - n.height / 2 > y2))

/-- The marquee-resolution branch of `onMouseUp`: select every node whose
bounding box meets the marquee rectangle, unioned with the previous
selection in append mode (JS builds the union through a `Set`, which keeps
first occurrences; `List.eraseDups` does the same). -/
def marqueeResolve (x1 y1 x2 y2 : ℚ) (append : Bool) (s : EditorState) : EditorState :=
  let ids := (s.nodes.filter (fun n => nodeIntersectsRect n x1 y1 x2 y2)).map (·.id)
  if append then setNodeSelection ((s.selectedNodeIds ++ ids).eraseDups) s
  else setNodeSelection ids s

/-- The `Ctrl/Cmd+A` handler: select every node. -/
def selectAllNodes (s : EditorState) : EditorState :=
  setNodeSelection (s.nodes.map (·.id)) s

/-- `clearFlow()` after confirmation: empty the diagram, clear selection
and connect state, commit. -/
def clearFlow (s : EditorState) : EditorState :=
  commitHistory
    { s with nodes := [], edges := [], selectedNodeId := "", selectedNodeIds := [],
             selectedEdgeId := "", connectFromId := "" }

/-! ## Group drag with snapping (over `ℚ`) -/

/-- `applySnap(rawX, rawY, movingId)`: snap to the 20-unit grid, then to
any other node's x or y within the 8-unit alignment threshold (the loop
runs over all nodes in order, updating the candidate as it goes). -/
def applySnap (nodes : List (FlowNode ℚ)) (rawX rawY : ℚ) (movingId : String) : ℚ × ℚ :=
  let x0 : ℚ := (round (rawX / 20) : ℤ) * 20
  let y0 : ℚ := (round (rawY / 20) : ℤ) * 20
  nodes.foldl
    (fun p node =>
      if node.id = movingId then p
      else
        let x1 := if |node.x - p.1| ≤ 8 then node.x else p.1
        let y1 := if |node.y - p.2| ≤ 8 then node.y else p.2
        (x1, y1))
    (x0, y0)

/-- The node/group drag branch of `onMouseMove` as a pure function: the
lead node's raw position is its drag-start position plus the pointer delta,
snapped by `applySnap`; the snapped delta is then applied to every dragged
node from its own drag-start position, through `Math.round` on each
coordinate.  (The source walks `draggingGroupIds` mutating the matching
node objects; with unique node ids this is the same as the map below.) -/
def moveGroup (nodes : List (FlowNode ℚ)) (draggingGroupIds : List String)
    (groupDragStart : List (String × ℚ × ℚ)) (leaderId : String)
    (dragStartPoint p : ℚ × ℚ) : List (FlowNode ℚ) :=
  match getA groupDragStart leaderId with
  | none => nodes
  | some ls =>
    let rawX := ls.1 + (p.1 - dragStartPoint.1)
    let rawY := ls.2 + (p.2 - dragStartPoint.2)
    let snapped := applySnap nodes rawX rawY leaderId
    let dx := snapped.1 - ls.1
    let dy := snapped.2 - ls.2
    nodes.map (fun n =>
      if n.id ∈ draggingGroupIds then
        match getA groupDragStart n.id with
        | some st => { n with x := ((round (st.1 + dx) : ℤ) : ℚ),
                              y := ((round (st.2 + dy) : ℤ) : ℚ) }
        | none => n
      else n)

/-! ## Auto-layout (topological layering, over `ℚ`) -/

/-- The two `autoLayout` orientations. -/
inductive LayoutDirection where
  | vertical
  | horizontal
deriving DecidableEq, Repr

/-- The body of the inner `for (const child of children)` loop of
`autoLayout`: relax the child's layer to `max(current, d + 1)`, decrement
its remaining in-degree, and enqueue it once the count reaches zero (or
below). State: `(depth, incomingCount, queue)`. -/
def layoutChildrenStep (d : Int)
    (st : List (String × Int) × List (String × Int) × List String) (child : String) :
    List (String × Int) × List (String × Int) × List String :=
  let depth' := setA st.1 child (max ((getA st.1 child).getD 0) (d + 1))
  let inc' := setA st.2.1 child ((getA st.2.1 child).getD 0 - 1)
  let queue' := if (getA inc' child).getD 0 ≤ 0 then st.2.2 ++ [child] else st.2.2
  (depth', inc', queue')

/-- The work-queue loop of `autoLayout` (`while (qIndex < queue.length)`).
The source loop need not terminate on every input (on a cyclic graph the
queue can grow forever), so the recursion is bounded by explicit fuel; the
caller supplies enough fuel for every terminating run that the claims
exercise. Returns the final depth map. -/
def layoutLoop (adj : List (String × List String)) :
    Nat → List String → Nat → List (String × Int) → List (String × Int) →
    List (String × Int)
  | 0, _, _, depth, _ => depth
  | fuel + 1, queue, qIndex, depth, inc =>
    if h : qIndex < queue.length then
      let i := queue.get ⟨qIndex, h⟩
      let d := (getA depth i).getD 0
      let children := (getA adj i).getD []
      let st := children.foldl (layoutChildrenStep d) (depth, inc, queue)
      layoutLoop adj fuel st.2.2 (qIndex + 1) st.1 st.2.1
    else depth

/-- The position-assignment pass of `autoLayout`: the source groups nodes
by layer (in node order) and then sets each node's position from its layer
and its index within the layer; equivalently, a node's index is the number
of earlier nodes in the same layer, which is what the `prior` accumulator
below counts. Layer gap `170`, item gap `140`, origin `(180, 120)`. -/
def assignLoop (dir : LayoutDirection) (depth : List (String × Int)) :
    List (FlowNode ℚ) → List (FlowNode ℚ) → List (FlowNode ℚ)
  | [], _ => []
  | n :: rest, prior =>
    let d := (getA depth n.id).getD 0
    let i := (prior.filter (fun m => (getA depth m.id).getD 0 = d)).length
    let n' :=
      match dir with
      | .vertical => { n with x := 180 + (i : ℚ) * 140, y := 120 + (d : ℚ) * 170 }
      | .horizontal => { n with x := 180 + (d : ℚ) * 170, y := 120 + (i : ℚ) * 140 }
    n' :: assignLoop dir depth rest (prior ++ [n])

/-- The in-degree and adjacency maps of `autoLayout`: every node id is
seeded with in-degree `0` and an empty child list, then each edge bumps its
target's in-degree (`|| 0` when the target is not a node) and appends the
target to its source's child list (skipped when the source is not a node,
matching `adj.get(..)?.push`). -/
def incAdjOf (nodes : List (FlowNode ℚ)) (edges : List (FlowEdge ℚ)) :
    List (String × Int) × List (String × List String) :=
  edges.foldl
    (fun pr e =>
      (setA pr.1 e.targetId ((getA pr.1 e.targetId).getD 0 + 1),
       match getA pr.2 e.sourceId with
       | some l => setA pr.2 e.sourceId (l ++ [e.targetId])
       | none => pr.2))
    (nodes.foldl (fun m n => setA m n.id 0) [], nodes.foldl (fun m n => setA m n.id []) [])

/-- The initial queue of `autoLayout`: all zero-in-degree nodes, or the
first node when none exist (fully cyclic graph). -/
def seedQueue (nodes : List (FlowNode ℚ)) (n0 : FlowNode ℚ)
    (inc : List (String × Int)) : List String :=
  let queue0 := (nodes.filter (fun n => (getA inc n.id).getD 0 = 0)).map (·.id)
  if queue0.length = 0 then [n0.id] else queue0

/-- The initial depth map: every seeded queue entry at layer `0`. -/
def initDepth (queue : List String) : List (String × Int) :=
  queue.foldl (fun m i => setA m i 0) []

/-- Fuel bound handed to `layoutLoop` (ample for every terminating run). -/
def fuelOf (nodes : List (FlowNode ℚ)) (edges : List (FlowEdge ℚ)) : Nat :=
  (nodes.length + edges.length + 1) * (nodes.length + edges.length + 1)

/-- The backfill pass: any node the loop never reached gets layer `0`. -/
def fillDepth (nodes : List (FlowNode ℚ)) (depth : List (String × Int)) :
    List (String × Int) :=
  nodes.foldl (fun m n => if (getA m n.id).isSome then m else setA m n.id 0) depth

/-- The final pass of `autoLayout` over the edges: clear every explicit
bend point. -/
def clearBends (edges : List (FlowEdge ℚ)) : List (FlowEdge ℚ) :=
  edges.map (fun e => { e with bendX := none, bendY := none })

/-- `autoLayout(direction)` on the diagram: Kahn-style longest-path
layering seeded with the zero-in-degree nodes (or, on a fully cyclic graph,
the first node), position assignment per layer, and clearing of every
edge's explicit bend point. -/
def autoLayout (dir : LayoutDirection) (nodes : List (FlowNode ℚ))
    (edges : List (FlowEdge ℚ)) : List (FlowNode ℚ) × List (FlowEdge ℚ) :=
  match nodes with
  | [] => (nodes, edges)
  | n0 :: _ =>
    let st := incAdjOf nodes edges
    let queue1 := seedQueue nodes n0 st.1
    let depth1 := layoutLoop st.2 (fuelOf nodes edges) queue1 0 (initDepth queue1) st.1
    (assignLoop dir (fillDepth nodes depth1) nodes [], clearBends edges)

lemma autoLayout_cons (dir : LayoutDirection) (n0 : FlowNode ℚ)
    (rest : List (FlowNode ℚ)) (edges : List (FlowEdge ℚ)) :
    autoLayout dir (n0 :: rest) edges =
      (assignLoop dir
        (fillDepth (n0 :: rest)
          (layoutLoop (incAdjOf (n0 :: rest) edges).2 (fuelOf (n0 :: rest) edges)
            (seedQueue (n0 :: rest) n0 (incAdjOf (n0 :: rest) edges).1) 0
            (initDepth (seedQueue (n0 :: rest) n0 (incAdjOf (n0 :: rest) edges).1))
            (incAdjOf (n0 :: rest) edges).1))
        (n0 :: rest) [], clearBends edges) := rfl

/-! ## History lemmas (claims C2, C3) -/

/-- A mutate-then-commit step, iterated: between two commits the diagram is
replaced by arbitrary edits, then `commitHistory` runs — the shape of every
discrete mutating gesture in the editor. -/
def commitSeq (s : EditorState) (ds : List (DiagramSnapshot ℚ)) : EditorState :=
  ds.foldl (fun t d => commitHistory { t with nodes := d.nodes, edges := d.edges }) s

lemma commitSeq_cons (s : EditorState) (d : DiagramSnapshot ℚ)
    (ds : List (DiagramSnapshot ℚ)) :
    commitSeq s (d :: ds) =
      commitSeq (commitHistory { s with nodes := d.nodes, edges := d.edges }) ds := rfl

/-- History well-formedness maintained by `resetHistory` and
`commitHistory`: initialised, index on the last entry, between 1 and 80
stored snapshots. -/
def HistCore (t : EditorState) : Prop :=
  t.historyReady = true ∧ t.historyIndex = (t.history.length : Int) - 1 ∧
    1 ≤ t.history.length ∧ t.history.length ≤ 80

lemma histCore_resetHistory (s : EditorState) : HistCore (resetHistory s) := by
  unfold HistCore resetHistory
  refine ⟨rfl, ?_, ?_, ?_⟩ <;> simp

lemma commitHistory_spec (t : EditorState) (h : HistCore t) :
    (commitHistory t).history =
      (t.history ++ [DiagramSnapshot.mk t.nodes t.edges]).drop (t.history.length + 1 - 80) ∧
    (commitHistory t).nodes = t.nodes ∧ (commitHistory t).edges = t.edges ∧
    HistCore (commitHistory t) ∧
    (commitHistory t).history.getLast? = some (DiagramSnapshot.mk t.nodes t.edges) ∧
    2 ≤ (commitHistory t).history.length := by
  obtain ⟨hr, hi, h1, h80⟩ := h
  have htake : t.history.take (t.historyIndex + 1).toNat = t.history := by
    have hn : (t.historyIndex + 1).toNat = t.history.length := by rw [hi]; omega
    rw [hn, List.take_length]
  have hL : (t.history ++ [DiagramSnapshot.mk t.nodes t.edges]).length =
      t.history.length + 1 := by
    rw [List.length_append]; rfl
  by_cases hc : 80 < (t.history ++ [DiagramSnapshot.mk t.nodes t.edges]).length
  · have hlen : t.history.length = 80 := by rw [hL] at hc; omega
    have hdrop : t.history.length + 1 - 80 = 1 := by omega
    have hcommit : commitHistory t =
        { t with history := (t.history ++ [DiagramSnapshot.mk t.nodes t.edges]).drop 1,
                 historyIndex :=
                   (((t.history ++ [DiagramSnapshot.mk t.nodes t.edges]).drop 1).length : Int)
                     - 1 } := by
      simp only [commitHistory, cloneDiagram]
      rw [if_pos hr, htake, if_pos hc]
    obtain ⟨x, xs, hx⟩ : ∃ x xs, t.history = x :: xs := by
      cases hcase : t.history with
      | nil => rw [hcase] at hlen; simp at hlen
      | cons x xs => exact ⟨x, xs, rfl⟩
    have hxs : xs.length = 79 := by
      have h' := hlen
      rw [hx] at h'
      simpa using h'
    have hd : (t.history ++ [DiagramSnapshot.mk t.nodes t.edges]).drop 1 =
        xs ++ [DiagramSnapshot.mk t.nodes t.edges] := by rw [hx]; rfl
    rw [hcommit, hdrop]
    refine ⟨rfl, rfl, rfl, ⟨hr, rfl, ?_, ?_⟩, ?_, ?_⟩
    · show 1 ≤ ((t.history ++ [DiagramSnapshot.mk t.nodes t.edges]).drop 1).length
      rw [hd]; simp
    · show ((t.history ++ [DiagramSnapshot.mk t.nodes t.edges]).drop 1).length ≤ 80
      rw [hd]; simp [hxs]
    · show ((t.history ++ [DiagramSnapshot.mk t.nodes t.edges]).drop 1).getLast? = _
      rw [hd]; exact List.getLast?_concat _
    · show 2 ≤ ((t.history ++ [DiagramSnapshot.mk t.nodes t.edges]).drop 1).length
      rw [hd]; simp [hxs]
  · have hdrop : t.history.length + 1 - 80 = 0 := by rw [hL] at hc; omega
    have hcommit : commitHistory t =
        { t with history := t.history ++ [DiagramSnapshot.mk t.nodes t.edges],
                 historyIndex :=
                   (((t.history ++ [DiagramSnapshot.mk t.nodes t.edges])).length : Int)
                     - 1 } := by
      simp only [commitHistory, cloneDiagram]
      rw [if_pos hr, htake, if_neg hc]
    rw [hcommit, hdrop, List.drop_zero]
    refine ⟨rfl, rfl, rfl, ⟨hr, rfl, ?_, ?_⟩, ?_, ?_⟩
    · show 1 ≤ (t.history ++ [DiagramSnapshot.mk t.nodes t.edges]).length
      rw [hL]; omega
    · show (t.history ++ [DiagramSnapshot.mk t.nodes t.edges]).length ≤ 80
      rw [hL] at hc ⊢; omega
    · exact List.getLast?_concat _
    · show 2 ≤ (t.history ++ [DiagramSnapshot.mk t.nodes t.edges]).length
      rw [hL]; omega

lemma commitSeq_spec (ds : List (DiagramSnapshot ℚ)) :
    ∀ t : EditorState, HistCore t →
      HistCore (commitSeq t ds) ∧
      (commitSeq t ds).history =
        (t.history ++ ds).drop (t.history.length + ds.length - 80) := by
  induction ds with
  | nil =>
    intro t h
    refine ⟨h, ?_⟩
    have h80 := h.2.2.2
    simp only [commitSeq, List.foldl_nil, List.append_nil, List.length_nil]
    rw [show t.history.length + 0 - 80 = 0 by omega, List.drop_zero]
  | cons d ds ih =>
    intro t h
    have hmut : HistCore { t with nodes := d.nodes, edges := d.edges } :=
      ⟨h.1, h.2.1, h.2.2.1, h.2.2.2⟩
    obtain ⟨hch, -, -, hcore, -, -⟩ :=
      commitHistory_spec { t with nodes := d.nodes, edges := d.edges } hmut
    obtain ⟨hcore', hhist'⟩ :=
      ih (commitHistory { t with nodes := d.nodes, edges := d.edges }) hcore
    rw [commitSeq_cons] at *
    refine ⟨hcore', ?_⟩
    rw [hhist', hch]
    simp only at hch ⊢
    have heta : DiagramSnapshot.mk d.nodes d.edges = d := rfl
    rw [heta]
    have hj : t.history.length + 1 - 80 ≤ (t.history ++ [d]).length := by
      simp; omega
    rw [List.length_drop, ← List.drop_append_of_le_length hj, List.drop_drop]
    have hassoc : t.history ++ [d] ++ ds = t.history ++ d :: ds := by
      rw [List.append_assoc]; rfl
    rw [hassoc]
    congr 1
    have hl1 : 1 ≤ t.history.length := h.2.2.1
    have hl2 : t.history.length ≤ 80 := h.2.2.2
    simp only [List.length_append, List.length_cons, List.length_nil]
    omega

lemma commitSeq_last (ds : List (DiagramSnapshot ℚ)) :
    ∀ t : EditorState, HistCore t → ds ≠ [] →
      (commitSeq t ds).history.getLast? =
        some (DiagramSnapshot.mk (commitSeq t ds).nodes (commitSeq t ds).edges) ∧
      2 ≤ (commitSeq t ds).history.length := by
  induction ds with
  | nil => intro t _ hne; exact absurd rfl hne
  | cons d ds ih =>
    intro t h _
    have hmut : HistCore { t with nodes := d.nodes, edges := d.edges } :=
      ⟨h.1, h.2.1, h.2.2.1, h.2.2.2⟩
    obtain ⟨-, hn, he, hcore, hlast, h2⟩ :=
      commitHistory_spec { t with nodes := d.nodes, edges := d.edges } hmut
    rw [commitSeq_cons]
    by_cases hds : ds = []
    · subst hds
      simp only [commitSeq, List.foldl_nil]
      simp only at hn he
      rw [hlast, hn, he]
      exact ⟨rfl, h2⟩
    · exact ih _ hcore hds

lemma undo_redo_restore (s : EditorState) (h : HistCore s)
    (hl : s.history.getLast? = some (DiagramSnapshot.mk s.nodes s.edges))
    (h2 : 2 ≤ s.history.length) :
    (redo (undo s)).nodes = s.nodes ∧ (redo (undo s)).edges = s.edges := by
  obtain ⟨hr, hi, h1, h80⟩ := h
  have hcu : canUndo s := by unfold canUndo; rw [hi]; omega
  have hundo : undo s = applySnapshot
      (s.history.getD (s.historyIndex - 1).toNat ⟨[], []⟩)
      { s with historyIndex := s.historyIndex - 1 } := by
    unfold undo
    rw [if_pos hcu]
  have hh : (undo s).history = s.history := by rw [hundo]; rfl
  have hix : (undo s).historyIndex = s.historyIndex - 1 := by rw [hundo]; rfl
  have hcr : canRedo (undo s) := by
    unfold canRedo
    rw [hix, hh, hi]
    constructor <;> omega
  have hredo : redo (undo s) = applySnapshot
      ((undo s).history.getD ((undo s).historyIndex + 1).toNat ⟨[], []⟩)
      { undo s with historyIndex := (undo s).historyIndex + 1 } := by
    unfold redo
    rw [if_pos hcr]
  have hidx : ((undo s).historyIndex + 1).toNat = s.history.length - 1 := by
    rw [hix, hi]; omega
  have hget : s.history.getD (s.history.length - 1) ⟨[], []⟩ =
      DiagramSnapshot.mk s.nodes s.edges := by
    rw [List.getD_eq_getElem?_getD, ← List.getLast?_eq_getElem?, hl]
    rfl
  rw [hredo, hh, hidx, hget]
  exact ⟨rfl, rfl⟩

/-- Claim C2: after any nonempty sequence of commits from a fresh history,
`undo()` followed by `redo()` restores the live diagram (nodes and edges)
to deep equality with its pre-undo value; `undo()` at history index 0 is a
no-op, and `redo()` with the index already at the last entry is a no-op. -/
theorem claim_C2 :
    (∀ (s0 : EditorState) (ds : List (DiagramSnapshot ℚ)), ds ≠ [] →
      (redo (undo (commitSeq (resetHistory s0) ds))).nodes =
        (commitSeq (resetHistory s0) ds).nodes ∧
      (redo (undo (commitSeq (resetHistory s0) ds))).edges =
        (commitSeq (resetHistory s0) ds).edges) ∧
    (∀ s : EditorState, s.historyIndex = 0 → undo s = s) ∧
    (∀ s : EditorState, s.historyIndex = (s.history.length : Int) - 1 → redo s = s) := by
  refine ⟨?_, ?_, ?_⟩
  · intro s0 ds hne
    have hcore := histCore_resetHistory s0
    obtain ⟨hc', -⟩ := commitSeq_spec ds (resetHistory s0) hcore
    obtain ⟨hlast, h2⟩ := commitSeq_last ds (resetHistory s0) hcore hne
    exact undo_redo_restore _ hc' hlast h2
  · intro s h0
    unfold undo
    rw [if_neg (show ¬ canUndo s by unfold canUndo; rw [h0]; omega)]
  · intro s hlast
    unfold redo
    rw [if_neg (show ¬ canRedo s by
      unfold canRedo; rw [hlast]; rintro ⟨-, hcon⟩; omega)]

theorem claim_C2_witness :
    ((redo (undo (commitSeq (resetHistory { nodes := [], edges := [] })
        [DiagramSnapshot.mk [] []]))).nodes =
      (commitSeq (resetHistory { nodes := [], edges := [] })
        [DiagramSnapshot.mk [] []]).nodes ∧
     (redo (undo (commitSeq (resetHistory { nodes := [], edges := [] })
        [DiagramSnapshot.mk [] []]))).edges =
      (commitSeq (resetHistory { nodes := [], edges := [] })
        [DiagramSnapshot.mk [] []]).edges) ∧
    undo { nodes := [], edges := [], historyIndex := 0 } =
      { nodes := [], edges := [], historyIndex := 0 } ∧
    redo { nodes := [], edges := [] } = { nodes := [], edges := [] } :=
  ⟨claim_C2.1 _ _ (by simp), claim_C2.2.1 _ rfl, claim_C2.2.2 _ (by decide)⟩

/-- Claim C3: `commit()` is a no-op while history is uninitialised;
otherwise it truncates the snapshots after the current index, appends a
copy of the current diagram, caps the store at 80 snapshots by dropping the
oldest, and points the index at the last entry; 100 commits from a fresh
history retain exactly `min 101 80 = 80` snapshots, the earliest evicted
first (the retained suffix is a `List.drop` of the committed sequence). -/
theorem claim_C3 :
    (∀ s : EditorState, s.historyReady = false → commitHistory s = s) ∧
    (∀ s : EditorState, s.historyReady = true →
      (commitHistory s).history =
        (let t' := s.history.take (s.historyIndex + 1).toNat ++
            [DiagramSnapshot.mk s.nodes s.edges]
         if 80 < t'.length then t'.drop 1 else t') ∧
      (commitHistory s).historyIndex = ((commitHistory s).history.length : Int) - 1) ∧
    (∀ (s0 : EditorState) (ds : List (DiagramSnapshot ℚ)),
      (commitSeq (resetHistory s0) ds).history =
        (DiagramSnapshot.mk s0.nodes s0.edges :: ds).drop (1 + ds.length - 80) ∧
      (commitSeq (resetHistory s0) ds).history.length = min (1 + ds.length) 80) := by
  refine ⟨?_, ?_, ?_⟩
  · intro s hr
    unfold commitHistory
    rw [if_neg (by rw [hr]; simp)]
  · intro s hr
    constructor
    · simp only [commitHistory, cloneDiagram]
      rw [if_pos hr]
    · simp only [commitHistory, cloneDiagram]
      rw [if_pos hr]
  · intro s0 ds
    obtain ⟨hcore', hhist⟩ := commitSeq_spec ds (resetHistory s0) (histCore_resetHistory s0)
    have hres : (resetHistory s0).history = [DiagramSnapshot.mk s0.nodes s0.edges] := rfl
    rw [hres] at hhist
    simp only [List.length_singleton] at hhist
    constructor
    · rw [hhist]; rfl
    · rw [hhist, List.length_drop]
      simp only [List.length_append, List.length_cons, List.length_nil]
      omega

/-- The empty diagram snapshot, used in concrete witnesses. -/
def emptySnap : DiagramSnapshot ℚ := ⟨[], []⟩

/-- A concrete initialised single-snapshot state used to witness C3. -/
def c3ReadyState : EditorState :=
  { nodes := [], edges := [], historyReady := true, historyIndex := 0, history := [emptySnap] }

theorem claim_C3_witness :
    commitHistory { nodes := [], edges := [] } = { nodes := [], edges := [] } ∧
    ((commitHistory c3ReadyState).history =
      (let t' := c3ReadyState.history.take (c3ReadyState.historyIndex + 1).toNat ++
          [DiagramSnapshot.mk c3ReadyState.nodes c3ReadyState.edges]
       if 80 < t'.length then t'.drop 1 else t') ∧
     (commitHistory c3ReadyState).historyIndex =
      ((commitHistory c3ReadyState).history.length : Int) - 1) ∧
    ((commitSeq (resetHistory { nodes := [], edges := [] })
        (List.replicate 100 emptySnap)).history =
      (DiagramSnapshot.mk [] [] :: List.replicate 100 emptySnap).drop
        (1 + (List.replicate 100 emptySnap).length - 80) ∧
     (commitSeq (resetHistory { nodes := [], edges := [] })
        (List.replicate 100 emptySnap)).history.length =
      min (1 + (List.replicate 100 emptySnap).length) 80) :=
  ⟨claim_C3.1 _ rfl, claim_C3.2.1 c3ReadyState rfl, claim_C3.2.2 _ _⟩

/-! ## Dangling edges (claim C7) -/

lemma edgePath_none_of_missing (nodes : List (FlowNode ℝ)) (e : FlowEdge ℝ)
    (h : findNode nodes e.sourceId = none ∨ findNode nodes e.targetId = none) :
    edgePath nodes e = none := by
  unfold edgePath
  rcases h with h | h
  · rw [h]
  · rw [h]
    cases findNode nodes e.sourceId <;> rfl

lemma getEdgeAtRev_skip (nodes : List (FlowNode ℝ)) (x y hd : ℝ) (e : FlowEdge ℝ)
    (he : edgePath nodes e = none) :
    ∀ l1 l2 : List (FlowEdge ℝ),
      getEdgeAtRev nodes x y hd (l1 ++ e :: l2) = getEdgeAtRev nodes x y hd (l1 ++ l2) := by
  intro l1
  induction l1 with
  | nil =>
    intro l2
    simp only [List.nil_append, getEdgeAtRev, he]
  | cons a l1 ih =>
    intro l2
    simp only [List.cons_append]
    cases hpa : edgePath nodes a with
    | none => simp only [getEdgeAtRev, hpa]; exact ih l2
    | some p =>
      simp only [getEdgeAtRev, hpa]
      split_ifs with hcond
      · rfl
      · exact ih l2

lemma getBendHandleEdgeAtRev_skip (nodes : List (FlowNode ℝ)) (x y r : ℝ) (e : FlowEdge ℝ)
    (he : edgePath nodes e = none) :
    ∀ l1 l2 : List (FlowEdge ℝ),
      getBendHandleEdgeAtRev nodes x y r (l1 ++ e :: l2) =
        getBendHandleEdgeAtRev nodes x y r (l1 ++ l2) := by
  intro l1
  induction l1 with
  | nil =>
    intro l2
    simp only [List.nil_append, getBendHandleEdgeAtRev, he]
  | cons a l1 ih =>
    intro l2
    simp only [List.cons_append]
    cases hpa : edgePath nodes a with
    | none => simp only [getBendHandleEdgeAtRev, hpa]; exact ih l2
    | some p =>
      simp only [getBendHandleEdgeAtRev, hpa]
      split_ifs with hcond
      · rfl
      · exact ih l2

/-- Claim C7: an edge whose `sourceId` or `targetId` does not resolve to an
existing node gets a `null` path from `edgePath` (totality of the Lean
function means no exception is possible), and both `getEdgeAt` and
`getBendHandleEdgeAt` behave on an edge list containing such an edge
exactly as on the list with that edge removed — the dangling edge is
skipped silently while all remaining edges are processed normally. -/
theorem claim_C7 (nodes : List (FlowNode ℝ)) (e : FlowEdge ℝ)
    (l1 l2 : List (FlowEdge ℝ)) (x y scale : ℝ)
    (h : findNode nodes e.sourceId = none ∨ findNode nodes e.targetId = none) :
    edgePath nodes e = none ∧
    getEdgeAt nodes (l1 ++ e :: l2) x y scale = getEdgeAt nodes (l1 ++ l2) x y scale ∧
    getBendHandleEdgeAt nodes (l1 ++ e :: l2) x y scale =
      getBendHandleEdgeAt nodes (l1 ++ l2) x y scale := by
  have he := edgePath_none_of_missing nodes e h
  refine ⟨he, ?_, ?_⟩
  · unfold getEdgeAt
    rw [List.reverse_append, List.reverse_cons, List.reverse_append, List.append_assoc]
    exact getEdgeAtRev_skip nodes x y (8 / scale) e he l2.reverse l1.reverse
  · unfold getBendHandleEdgeAt
    rw [List.reverse_append, List.reverse_cons, List.reverse_append, List.append_assoc]
    exact getBendHandleEdgeAtRev_skip nodes x y (10 / scale) e he l2.reverse l1.reverse

theorem claim_C7_witness :
    edgePath [] { id := "e1", sourceId := "a", targetId := "b" } = none ∧
    getEdgeAt [] ([] ++ { id := "e1", sourceId := "a", targetId := "b" } :: []) 0 0 1 =
      getEdgeAt [] ([] ++ []) 0 0 1 ∧
    getBendHandleEdgeAt []
        ([] ++ { id := "e1", sourceId := "a", targetId := "b" } :: []) 0 0 1 =
      getBendHandleEdgeAt [] ([] ++ []) 0 0 1 :=
  claim_C7 [] { id := "e1", sourceId := "a", targetId := "b" } [] [] 0 0 1 (Or.inl rfl)

/-! ## Geometry helper lemmas -/

lemma hypot_left (a : ℝ) : hypot a 0 = |a| := by
  unfold hypot
  rw [show a ^ 2 + 0 ^ 2 = a ^ 2 by ring, Real.sqrt_sq_eq_abs]

lemma hypot_right (a : ℝ) : hypot 0 a = |a| := by
  unfold hypot
  rw [show (0:ℝ) ^ 2 + a ^ 2 = a ^ 2 by ring, Real.sqrt_sq_eq_abs]

lemma raySeg_none_of_small_cross (ox oy dx dy ax ay bx by' : ℝ)
    (h : |dx * (by' - ay) - dy * (bx - ax)| < 1e-7) :
    raySegmentIntersection ox oy dx dy ax ay bx by' = none := by
  simp only [raySegmentIntersection]
  rw [if_pos h]

lemma bestHit_none_of_all_none (ox oy dx dy : ℝ) (segs : List ((ℝ × ℝ) × (ℝ × ℝ)))
    (h : ∀ s ∈ segs, raySegmentIntersection ox oy dx dy s.1.1 s.1.2 s.2.1 s.2.2 = none) :
    bestHit ox oy dx dy segs = none := by
  unfold bestHit
  induction segs with
  | nil => rfl
  | cons a l ih =>
    rw [List.foldl_cons, h a (List.mem_cons_self a l)]
    exact ih (fun s hs => h s (List.mem_cons_of_mem a hs))

/-- A degenerate io node (height below the `1e-7` parallel-guard threshold)
on which the io ray cast finds no segment hit. -/
def tinyIoNode : FlowNode ℝ :=
  { id := "io1", type := .io, text := "", x := 0, y := 0, width := 150, height := 1e-8 }

lemma tinyIo_segs : ioSegs tinyIoNode =
    [((-55, -(5e-9 : ℝ)), (75, -(5e-9 : ℝ))), ((75, -(5e-9 : ℝ)), (55, (5e-9 : ℝ))),
     ((55, (5e-9 : ℝ)), (-75, (5e-9 : ℝ))), ((-75, (5e-9 : ℝ)), (-55, -(5e-9 : ℝ)))] := by
  norm_num [ioSegs, tinyIoNode, Prod.ext_iff]

lemma tinyIo_bestHit : bestHit tinyIoNode.x tinyIoNode.y 1 0 (ioSegs tinyIoNode) = none := by
  rw [tinyIo_segs]
  refine bestHit_none_of_all_none _ _ _ _ _ ?_
  intro s hs
  simp only [List.mem_cons, List.not_mem_nil, or_false] at hs
  rcases hs with rfl | rfl | rfl | rfl <;>
    exact raySeg_none_of_small_cross _ _ _ _ _ _ _ _ (by norm_num [tinyIoNode, abs_lt])

/-- Claim C10: `raySegmentIntersection` guards near-parallel rays — any
call whose cross product is below `1e-7` in magnitude returns `none`
instead of dividing by (near) zero; and whenever the io ray cast over the
four quadrilateral segments yields no hit, `nodeBoundaryPoint` falls
through to the closed-form rectangle boundary point, so the io branch is
total and always produces a (finite) point. -/
theorem claim_C10 :
    (∀ ox oy dx dy ax ay bx by' : ℝ,
      |dx * (by' - ay) - dy * (bx - ax)| < 1e-7 →
      raySegmentIntersection ox oy dx dy ax ay bx by' = none) ∧
    (∀ (n : FlowNode ℝ) (tX tY vx vy len : ℝ), n.type = .io →
      vx = tX - n.x → vy = tY - n.y → len = hypot vx vy → ¬ len < 1e-6 →
      bestHit n.x n.y (vx / len) (vy / len) (ioSegs n) = none →
      nodeBoundaryPoint n tX tY = rectPoint n (vx / len) (vy / len)) := by
  constructor
  · exact raySeg_none_of_small_cross
  · intro n tX tY vx vy len hio hvx hvy hlen hbig hbest
    simp only [nodeBoundaryPoint]
    rw [← hvx, ← hvy, ← hlen, if_neg hbig]
    simp only [boundaryCore, hio]
    rw [hbest]

theorem claim_C10_witness :
    raySegmentIntersection 0 0 0 0 0 0 1 0 = none ∧
    nodeBoundaryPoint tinyIoNode 10 0 = rectPoint tinyIoNode (10 / 10) (0 / 10) := by
  constructor
  · exact claim_C10.1 0 0 0 0 0 0 1 0 (by norm_num)
  · refine claim_C10.2 tinyIoNode 10 0 10 0 10 rfl (by norm_num [tinyIoNode])
      (by norm_num [tinyIoNode]) (by rw [hypot_left]; norm_num) (by norm_num) ?_
    rw [show (10:ℝ)/10 = 1 by norm_num, show (0:ℝ)/10 = 0 by norm_num]
    exact tinyIo_bestHit

/-! ## Edge path derivation (claim C6) -/

/-- Claim C6: with both endpoints present and no stored bend, `edgePath`
resolves in two passes — provisional boundary points toward the midpoint of
the two centres, final bend = midpoint of the two provisional boundary
points, final boundary points pushed 2 units toward the bend; with a stored
bend `(bx, bY)` that point is the bend directly.  The push moves a point at
distance ≥ 1e-6 from the bend by exactly 2 units. -/
theorem claim_C6 (nodes : List (FlowNode ℝ)) (e : FlowEdge ℝ)
    (source target : FlowNode ℝ)
    (hs : findNode nodes e.sourceId = some source)
    (ht : findNode nodes e.targetId = some target) :
    (e.bendX = none → e.bendY = none →
      edgePath nodes e =
        (let mx := (source.x + target.x) / 2
         let my := (source.y + target.y) / 2
         let preS := nodeBoundaryPoint source mx my
         let preT := nodeBoundaryPoint target mx my
         let bx := (preS.1 + preT.1) / 2
         let bY := (preS.2 + preT.2) / 2
         some ⟨pushPointOutward (nodeBoundaryPoint source bx bY) bx bY 2,
               (bx, bY),
               pushPointOutward (nodeBoundaryPoint target bx bY) bx bY 2⟩)) ∧
    (∀ bx bY : ℝ, e.bendX = some bx → e.bendY = some bY →
      edgePath nodes e =
        some ⟨pushPointOutward (nodeBoundaryPoint source bx bY) bx bY 2,
              (bx, bY),
              pushPointOutward (nodeBoundaryPoint target bx bY) bx bY 2⟩) ∧
    (∀ (p : ℝ × ℝ) (tx ty : ℝ), ¬ hypot (tx - p.1) (ty - p.2) < 1e-6 →
      hypot ((pushPointOutward p tx ty 2).1 - p.1)
        ((pushPointOutward p tx ty 2).2 - p.2) = 2) := by
  refine ⟨?_, ?_, ?_⟩
  · intro hbx hby
    simp only [edgePath, hs, ht, hbx, hby, Option.getD_none]
  · intro bx bY hbx hby
    simp only [edgePath, hs, ht, hbx, hby, Option.getD_some]
  · intro p tx ty hfar
    set L := hypot (tx - p.1) (ty - p.2) with hL
    have hge : (1e-6 : ℝ) ≤ L := not_lt.mp hfar
    have hpos : (0:ℝ) < L := lt_of_lt_of_le (by norm_num) hge
    have hnn : (0:ℝ) ≤ (tx - p.1) ^ 2 + (ty - p.2) ^ 2 := by positivity
    have hsq : L ^ 2 = (tx - p.1) ^ 2 + (ty - p.2) ^ 2 := by
      rw [hL]; unfold hypot; exact Real.sq_sqrt hnn
    simp only [pushPointOutward]
    rw [← hL, if_neg hfar]
    unfold hypot
    have harg : (p.1 + (tx - p.1) / L * 2 - p.1) ^ 2 +
        (p.2 + (ty - p.2) / L * 2 - p.2) ^ 2 = 2 ^ 2 := by
      have hne : L ≠ 0 := ne_of_gt hpos
      field_simp
      linear_combination (-4 : ℝ) * hsq
    rw [harg, Real.sqrt_sq (by norm_num)]

/-- Concrete nodes and edge witnessing C6. -/
def c6Source : FlowNode ℝ :=
  { id := "a", type := .process, text := "", x := 0, y := 0, width := 140, height := 64 }

/-- Second concrete node witnessing C6. -/
def c6Target : FlowNode ℝ :=
  { id := "b", type := .process, text := "", x := 300, y := 0, width := 140, height := 64 }

/-- Concrete bend-free edge witnessing C6. -/
def c6Edge : FlowEdge ℝ := { id := "e1", sourceId := "a", targetId := "b" }

theorem claim_C6_witness :
    (edgePath [c6Source, c6Target] c6Edge =
      (let mx := (c6Source.x + c6Target.x) / 2
       let my := (c6Source.y + c6Target.y) / 2
       let preS := nodeBoundaryPoint c6Source mx my
       let preT := nodeBoundaryPoint c6Target mx my
       let bx := (preS.1 + preT.1) / 2
       let bY := (preS.2 + preT.2) / 2
       some ⟨pushPointOutward (nodeBoundaryPoint c6Source bx bY) bx bY 2,
             (bx, bY),
             pushPointOutward (nodeBoundaryPoint c6Target bx bY) bx bY 2⟩)) ∧
    hypot ((pushPointOutward ((0:ℝ), (0:ℝ)) 3 4 2).1 - ((0:ℝ), (0:ℝ)).1)
      ((pushPointOutward ((0:ℝ), (0:ℝ)) 3 4 2).2 - ((0:ℝ), (0:ℝ)).2) = 2 := by
  have hs : findNode [c6Source, c6Target] c6Edge.sourceId = some c6Source := by
    simp [findNode, c6Source, c6Edge]
  have ht : findNode [c6Source, c6Target] c6Edge.targetId = some c6Target := by
    simp [findNode, c6Source, c6Target, c6Edge]
  have hfar : ¬ hypot ((3:ℝ) - ((0:ℝ), (0:ℝ)).1) ((4:ℝ) - ((0:ℝ), (0:ℝ)).2) < 1e-6 := by
    apply not_lt.mpr
    unfold hypot
    rw [show ((3:ℝ) - ((0:ℝ), (0:ℝ)).1) ^ 2 + ((4:ℝ) - ((0:ℝ), (0:ℝ)).2) ^ 2 = 5 ^ 2
      by norm_num, Real.sqrt_sq (by norm_num : (0:ℝ) ≤ 5)]
    norm_num
  exact ⟨(claim_C6 [c6Source, c6Target] c6Edge c6Source c6Target hs ht).1 rfl rfl,
    (claim_C6 [c6Source, c6Target] c6Edge c6Source c6Target hs ht).2.2
      ((0:ℝ), (0:ℝ)) 3 4 hfar⟩

/-! ## Selection XOR invariant (claim C9) -/

/-- The selection invariant: the selected-node set and the selected-edge id
are never simultaneously non-empty. -/
def SelInvariant (s : EditorState) : Prop :=
  s.selectedNodeIds = [] ∨ s.selectedEdgeId = ""

/-- One editor operation, as the state transition it performs: every
selection-relevant operation of the editor (node/edge selection, toggling,
marquee resolution, delete, copy/paste, undo/redo, the connect tool, node
placement, clear, and the history operations). -/
inductive EditorStep : EditorState → EditorState → Prop where
  | single (i : String) (s : EditorState) : EditorStep s (setSingleNodeSelection i s)
  | multi (ids : List String) (s : EditorState) : EditorStep s (setNodeSelection ids s)
  | toggle (i : String) (s : EditorState) : EditorStep s (toggleNodeSelection i s)
  | bendSelect (i : String) (s : EditorState) : EditorStep s (bendHandleSelect i s)
  | edgeSel (i : String) (s : EditorState) : EditorStep s (edgeSelect i s)
  | nodeDown (i : String) (s : EditorState) : EditorStep s (nodeClick i s)
  | emptyDown (s : EditorState) : EditorStep s (emptyCanvasClick s)
  | marqueeBegin (s : EditorState) : EditorStep s (marqueeStart s)
  | marquee (x1 y1 x2 y2 : ℚ) (append : Bool) (s : EditorState) :
      EditorStep s (marqueeResolve x1 y1 x2 y2 append s)
  | selectAll (s : EditorState) : EditorStep s (selectAllNodes s)
  | del (s : EditorState) : EditorStep s (deleteSelected s)
  | copy (s : EditorState) : EditorStep s (copySelected s)
  | paste (gen : String → Nat → String) (s : EditorState) :
      EditorStep s (pasteClipboard gen s)
  | undoStep (s : EditorState) : EditorStep s (undo s)
  | redoStep (s : EditorState) : EditorStep s (redo s)
  | connect (gen : String → Nat → String) (i : String) (s : EditorState) :
      EditorStep s (connectClick gen i s)
  | place (gen : String → Nat → String) (t : FlowNodeType) (x y : ℚ) (s : EditorState) :
      EditorStep s (createNode gen t x y s)
  | clear (s : EditorState) : EditorStep s (clearFlow s)
  | commit (s : EditorState) : EditorStep s (commitHistory s)
  | reset (s : EditorState) : EditorStep s (resetHistory s)

lemma commitHistory_sel (t : EditorState) :
    (commitHistory t).selectedNodeIds = t.selectedNodeIds ∧
    (commitHistory t).selectedEdgeId = t.selectedEdgeId := by
  unfold commitHistory
  split_ifs <;> exact ⟨rfl, rfl⟩

lemma selInvariant_commitHistory (t : EditorState) (h : SelInvariant t) :
    SelInvariant (commitHistory t) := by
  obtain ⟨h1, h2⟩ := commitHistory_sel t
  unfold SelInvariant at *
  rw [h1, h2]
  exact h

/-- Claim C9: the selection XOR invariant — the selected-node-id set and
the selected-edge id are never simultaneously non-empty — is preserved by
every editor operation; selecting an edge clears the node selection and
selecting nodes clears the edge selection. -/
theorem claim_C9 (s s' : EditorState) (hinv : SelInvariant s) (hstep : EditorStep s s') :
    SelInvariant s' := by
  cases hstep with
  | single i s => exact Or.inr rfl
  | multi ids s => exact Or.inr rfl
  | toggle i s =>
    unfold toggleNodeSelection
    split_ifs <;> exact Or.inr rfl
  | bendSelect i s => exact Or.inl rfl
  | edgeSel i s => exact Or.inl rfl
  | nodeDown i s =>
    unfold nodeClick
    split_ifs <;> exact Or.inr rfl
  | emptyDown s => exact Or.inl rfl
  | marqueeBegin s => exact Or.inr rfl
  | marquee x1 y1 x2 y2 append s =>
    unfold marqueeResolve
    split_ifs <;> exact Or.inr rfl
  | selectAll s => exact Or.inr rfl
  | del s =>
    unfold deleteSelected
    split_ifs with hlen
    · exact selInvariant_commitHistory _ (Or.inl rfl)
    · cases hse : selectedEdge s with
      | none => exact hinv
      | some e => exact selInvariant_commitHistory _ (Or.inr rfl)
  | copy s =>
    simp only [copySelected]
    split_ifs <;> exact hinv
  | paste gen s =>
    unfold pasteClipboard
    cases hclip : s.clipboardData with
    | none => exact hinv
    | some clip =>
      dsimp only
      split_ifs with hempty
      · exact hinv
      · exact selInvariant_commitHistory _ (Or.inr rfl)
  | undoStep s =>
    unfold undo
    split_ifs with hcan
    · exact Or.inl rfl
    · exact hinv
  | redoStep s =>
    unfold redo
    split_ifs with hcan
    · exact Or.inl rfl
    · exact hinv
  | connect gen i s =>
    unfold connectClick
    split_ifs with h1 h2
    · exact Or.inr rfl
    · exact selInvariant_commitHistory _ (Or.inr rfl)
    · exact hinv
  | place gen t x y s => exact selInvariant_commitHistory _ (Or.inr rfl)
  | clear s => exact selInvariant_commitHistory _ (Or.inr rfl)
  | commit s => exact selInvariant_commitHistory _ hinv
  | reset s => exact hinv

theorem claim_C9_witness :
    SelInvariant (setSingleNodeSelection "n1" { nodes := [], edges := [] }) :=
  claim_C9 { nodes := [], edges := [] } _ (Or.inl rfl)
    (EditorStep.single "n1" { nodes := [], edges := [] })

/-! ## Group drag (claim C5) -/

/-- The lead node of the C5 counterexample, at integer coordinates. -/
def cL : FlowNode ℚ :=
  { id := "L", type := .process, text := "", x := 0, y := 0, width := 140, height := 64 }

/-- A second dragged node at the fractional x-coordinate `10.5`. -/
def cM : FlowNode ℚ :=
  { id := "M", type := .process, text := "", x := 21/2, y := 0, width := 140, height := 64 }

/-- Claim C5 counterexample: dragging the group `{L, M}` by a zero pointer
delta (lead node `L` at `(0,0)`, member `M` at `(10.5, 0)`) moves `M` to
`x = 11` — `Math.round` is applied to every member's coordinate — so `M`'s
new position is not its drag-start position plus the snapped delta (which
is zero), and the `L`–`M` offset changes from `10.5` to `11`. -/
theorem claim_C5_counterexample :
    (moveGroup [cL, cM] ["L", "M"] [("L", ((0:ℚ), (0:ℚ))), ("M", ((21/2 : ℚ), (0:ℚ)))]
        "L" (0, 0) (0, 0)).map (fun n => n.x) = [0, 11] ∧
    ((11 : ℚ) - 0 ≠ (21/2 : ℚ) - 0) := by
  constructor
  · norm_num [moveGroup, getA, applySnap, cL, cM, round_eq, abs_le, List.foldl]
    rw [if_neg (show ¬ (("M" : String) = "L") by decide)]
    norm_num
  · norm_num

/-- Claim C5 (amended): during a group drag each member's new position is
`Math.round(start + delta)` componentwise, where `delta` is the snapped
delta computed for the lead node — and consequently pairwise relative
offsets between dragged nodes are exactly preserved whenever the members'
drag-start coordinates are integers (the per-member rounding can perturb
fractional offsets, as the counterexample shows). -/
theorem claim_C5 (nodes : List (FlowNode ℚ)) (g : List String)
    (gs : List (String × ℚ × ℚ)) (leader : String) (p0 p : ℚ × ℚ)
    (ls : ℚ × ℚ) (hlead : getA gs leader = some ls) :
    moveGroup nodes g gs leader p0 p =
      (let snapped := applySnap nodes (ls.1 + (p.1 - p0.1)) (ls.2 + (p.2 - p0.2)) leader
       nodes.map (fun n =>
         if n.id ∈ g then
           match getA gs n.id with
           | some st =>
             { n with x := ((round (st.1 + (snapped.1 - ls.1)) : ℤ) : ℚ),
                      y := ((round (st.2 + (snapped.2 - ls.2)) : ℤ) : ℚ) }
           | none => n
         else n)) ∧
    (∀ (an am : ℤ) (d : ℚ),
      ((round ((an : ℚ) + d) : ℤ) : ℚ) - ((round ((am : ℚ) + d) : ℤ) : ℚ) =
        (an : ℚ) - (am : ℚ)) := by
  constructor
  · simp only [moveGroup, hlead]
  · intro an am d
    rw [add_comm ((an : ℚ)) d, round_add_int, add_comm ((am : ℚ)) d, round_add_int]
    push_cast
    ring

theorem claim_C5_witness :
    (moveGroup [cL] ["L"] [("L", ((0:ℚ), (0:ℚ)))] "L" (0, 0) (0, 0) =
      (let snapped := applySnap [cL] ((0:ℚ) + ((0:ℚ) - 0)) ((0:ℚ) + ((0:ℚ) - 0)) "L"
       [cL].map (fun n =>
         if n.id ∈ ["L"] then
           match getA [("L", ((0:ℚ), (0:ℚ)))] n.id with
           | some st =>
             { n with x := ((round (st.1 + (snapped.1 - 0)) : ℤ) : ℚ),
                      y := ((round (st.2 + (snapped.2 - 0)) : ℤ) : ℚ) }
           | none => n
         else n))) ∧
    ((round (((0:ℤ) : ℚ) + 1/2) : ℤ) : ℚ) - ((round (((2:ℤ) : ℚ) + 1/2) : ℤ) : ℚ) =
      (((0:ℤ) : ℚ)) - (((2:ℤ) : ℚ)) :=
  ⟨(claim_C5 [cL] ["L"] [("L", ((0:ℚ), (0:ℚ)))] "L" (0, 0) (0, 0) (0, 0)
      (by simp [getA])).1,
   (claim_C5 [cL] ["L"] [("L", ((0:ℚ), (0:ℚ)))] "L" (0, 0) (0, 0) (0, 0)
      (by simp [getA])).2 0 2 (1/2)⟩

/-! ## Auto-layout of a three-node chain (claim C8) -/

set_option maxHeartbeats 1600000 in
/-- Claim C8: for any diagram of three nodes `A, B, C` (distinct ids,
arbitrary kinds, texts, positions and sizes) connected as the linear chain
`A→B→C`, `autoLayout('vertical')` gives the three nodes strictly increasing
y coordinates in chain order and equal x coordinates, and clears every
edge's explicit bend point. -/
theorem claim_C8 (a b c : String) (hab : a ≠ b) (hac : a ≠ c) (hbc : b ≠ c)
    (tA tB tC : FlowNodeType) (sA sB sC : String)
    (xA yA wA hA xB yB wB hB xC yC wC hC : ℚ)
    (eAB eBC : FlowEdge ℚ)
    (h1 : eAB.sourceId = a) (h2 : eAB.targetId = b)
    (h3 : eBC.sourceId = b) (h4 : eBC.targetId = c) :
    ∃ nA' nB' nC' : FlowNode ℚ,
      (autoLayout .vertical
        [⟨a, tA, sA, xA, yA, wA, hA⟩, ⟨b, tB, sB, xB, yB, wB, hB⟩,
         ⟨c, tC, sC, xC, yC, wC, hC⟩] [eAB, eBC]).1 = [nA', nB', nC'] ∧
      nA'.x = nB'.x ∧ nB'.x = nC'.x ∧ nA'.y < nB'.y ∧ nB'.y < nC'.y ∧
      ∀ e ∈ (autoLayout .vertical
        [⟨a, tA, sA, xA, yA, wA, hA⟩, ⟨b, tB, sB, xB, yB, wB, hB⟩,
         ⟨c, tC, sC, xC, yC, wC, hC⟩] [eAB, eBC]).2,
        e.bendX = none ∧ e.bendY = none := by
  have pab : (a = b) = False := eq_false hab
  have pba : (b = a) = False := eq_false (Ne.symm hab)
  have pac : (a = c) = False := eq_false hac
  have pca : (c = a) = False := eq_false (Ne.symm hac)
  have pbc : (b = c) = False := eq_false hbc
  have pcb : (c = b) = False := eq_false (Ne.symm hbc)
  set nA : FlowNode ℚ := ⟨a, tA, sA, xA, yA, wA, hA⟩ with hnA
  set nB : FlowNode ℚ := ⟨b, tB, sB, xB, yB, wB, hB⟩ with hnB
  set nC : FlowNode ℚ := ⟨c, tC, sC, xC, yC, wC, hC⟩ with hnC
  have hincadj : incAdjOf [nA, nB, nC] [eAB, eBC] =
      ([(c, 1), (b, 1), (c, 0), (b, 0), (a, 0)],
       [(b, [c]), (a, [b]), (c, []), (b, []), (a, [])]) := by
    simp [incAdjOf, getA, setA, h1, h2, h3, h4, pab, pba, pac, pca, pbc, pcb,
      hnA, hnB, hnC]
  have hqueue : seedQueue [nA, nB, nC] nA
      [(c, 1), (b, 1), (c, 0), (b, 0), (a, 0)] = [a] := by
    simp [seedQueue, getA, pab, pba, pac, pca, pbc, pcb, hnA, hnB, hnC]
  have hinit : initDepth [a] = [(a, 0)] := rfl
  have hfuel : fuelOf [nA, nB, nC] [eAB, eBC] = 36 := by
    simp [fuelOf]
  have hloop : layoutLoop [(b, [c]), (a, [b]), (c, []), (b, []), (a, [])] 36
      [a] 0 [(a, 0)] [(c, 1), (b, 1), (c, 0), (b, 0), (a, 0)] =
      [(c, 2), (b, 1), (a, 0)] := by
    simp [layoutLoop, layoutChildrenStep, getA, setA, pab, pba, pac, pca, pbc, pcb,
      List.get, max_def]
  have hfill : fillDepth [nA, nB, nC] [(c, 2), (b, 1), (a, 0)] =
      [(c, 2), (b, 1), (a, 0)] := by
    simp [fillDepth, getA, pab, pba, pac, pca, pbc, pcb, hnA, hnB, hnC]
  have hassign : assignLoop .vertical [(c, 2), (b, 1), (a, 0)] [nA, nB, nC] [] =
      [⟨a, tA, sA, 180, 120, wA, hA⟩, ⟨b, tB, sB, 180, 290, wB, hB⟩,
       ⟨c, tC, sC, 180, 460, wC, hC⟩] := by
    simp [assignLoop, getA, pab, pba, pac, pca, pbc, pcb, hnA, hnB, hnC]
    norm_num
  have hmain : autoLayout .vertical [nA, nB, nC] [eAB, eBC] =
      ([⟨a, tA, sA, 180, 120, wA, hA⟩, ⟨b, tB, sB, 180, 290, wB, hB⟩,
        ⟨c, tC, sC, 180, 460, wC, hC⟩], clearBends [eAB, eBC]) := by
    rw [autoLayout_cons, hincadj]
    simp only
    rw [hqueue, hinit, hfuel, hloop, hfill, hassign]
  refine ⟨⟨a, tA, sA, 180, 120, wA, hA⟩, ⟨b, tB, sB, 180, 290, wB, hB⟩,
    ⟨c, tC, sC, 180, 460, wC, hC⟩, ?_, rfl, rfl, by norm_num, by norm_num, ?_⟩
  · rw [hmain]
  · intro e he
    rw [hmain] at he
    simp only [clearBends, List.map, List.mem_cons, List.not_mem_nil, or_false] at he
    rcases he with rfl | rfl <;> exact ⟨rfl, rfl⟩

theorem claim_C8_witness :
    ∃ nA' nB' nC' : FlowNode ℚ,
      (autoLayout .vertical
        [⟨"a", .start, "A", 5, 7, 140, 64⟩, ⟨"b", .process, "B", 50, 70, 140, 64⟩,
         ⟨"c", .«end», "C", 500, 700, 140, 64⟩]
        [{ id := "e1", sourceId := "a", targetId := "b" },
         { id := "e2", sourceId := "b", targetId := "c" }]).1 = [nA', nB', nC'] ∧
      nA'.x = nB'.x ∧ nB'.x = nC'.x ∧ nA'.y < nB'.y ∧ nB'.y < nC'.y ∧
      ∀ e ∈ (autoLayout .vertical
        [⟨"a", .start, "A", 5, 7, 140, 64⟩, ⟨"b", .process, "B", 50, 70, 140, 64⟩,
         ⟨"c", .«end», "C", 500, 700, 140, 64⟩]
        [{ id := "e1", sourceId := "a", targetId := "b" },
         { id := "e2", sourceId := "b", targetId := "c" }]).2,
        e.bendX = none ∧ e.bendY = none :=
  claim_C8 "a" "b" "c" (by decide) (by decide) (by decide)
    .start .process .«end» "A" "B" "C" 5 7 140 64 50 70 140 64 500 700 140 64
    { id := "e1", sourceId := "a", targetId := "b" }
    { id := "e2", sourceId := "b", targetId := "c" } rfl rfl rfl rfl

/-! ## Clipboard paste (claim C4) -/

lemma pasteClipboard_eq (gen : String → Nat → String) (s : EditorState)
    (clip : DiagramSnapshot ℚ) (hclip : s.clipboardData = some clip)
    (hne : ¬ clip.nodes.length = 0) :
    pasteClipboard gen s =
      commitHistory
        { s with
          nodes := s.nodes ++
            (pasteNodesAux gen (28 * ((s.pasteCount + 1 : Nat) : ℚ)) clip.nodes s.nextId).1,
          edges := s.edges ++
            (pasteEdgesAux gen (28 * ((s.pasteCount + 1 : Nat) : ℚ))
              (pasteNodesAux gen (28 * ((s.pasteCount + 1 : Nat) : ℚ)) clip.nodes s.nextId).2.1
              clip.edges
              (pasteNodesAux gen (28 * ((s.pasteCount + 1 : Nat) : ℚ)) clip.nodes s.nextId).2.2).1,
          selectedNodeIds :=
            (pasteNodesAux gen (28 * ((s.pasteCount + 1 : Nat) : ℚ)) clip.nodes s.nextId).1.map (·.id),
          selectedNodeId :=
            ((pasteNodesAux gen (28 * ((s.pasteCount + 1 : Nat) : ℚ)) clip.nodes s.nextId).1.map
              (·.id)).headD "",
          selectedEdgeId := "", connectFromId := "",
          pasteCount := s.pasteCount + 1,
          nextId :=
            (pasteEdgesAux gen (28 * ((s.pasteCount + 1 : Nat) : ℚ))
              (pasteNodesAux gen (28 * ((s.pasteCount + 1 : Nat) : ℚ)) clip.nodes s.nextId).2.1
              clip.edges
              (pasteNodesAux gen (28 * ((s.pasteCount + 1 : Nat) : ℚ)) clip.nodes s.nextId).2.2).2 } := by
  simp only [pasteClipboard, hclip, setNodeSelection]
  rw [if_neg hne]

lemma pasteNodesAux_length (gen : String → Nat → String) (off : ℚ) :
    ∀ (l : List (FlowNode ℚ)) (cst : Nat),
      (pasteNodesAux gen off l cst).1.length = l.length := by
  intro l
  induction l with
  | nil => intro cst; rfl
  | cons n rest ih => intro cst; simp [pasteNodesAux, ih (cst + 1)]

lemma pasteNodesAux_counter (gen : String → Nat → String) (off : ℚ) :
    ∀ (l : List (FlowNode ℚ)) (cst : Nat),
      (pasteNodesAux gen off l cst).2.2 = cst + l.length := by
  intro l
  induction l with
  | nil => intro cst; rfl
  | cons n rest ih => intro cst; simp [pasteNodesAux, ih (cst + 1)]; omega

lemma pasteNodesAux_get (gen : String → Nat → String) (off : ℚ) :
    ∀ (l : List (FlowNode ℚ)) (cst : Nat) (i : Nat),
      (pasteNodesAux gen off l cst).1.get? i =
        (l.get? i).map (fun n =>
          { n with id := gen "node" (cst + i), x := n.x + off, y := n.y + off }) := by
  intro l
  induction l with
  | nil => intro cst i; simp [pasteNodesAux]
  | cons n rest ih =>
    intro cst i
    cases i with
    | zero => simp [pasteNodesAux]
    | succ j =>
      simp only [pasteNodesAux, List.get?_cons_succ]
      rw [ih (cst + 1) j]
      have : cst + 1 + j = cst + (j + 1) := by omega
      rw [this]

lemma pasteNodesAux_ids (gen : String → Nat → String) (off : ℚ) :
    ∀ (l : List (FlowNode ℚ)) (cst : Nat),
      (pasteNodesAux gen off l cst).1.map (·.id) =
        (List.range' cst l.length).map (gen "node") := by
  intro l
  induction l with
  | nil => intro cst; rfl
  | cons n rest ih =>
    intro cst
    simp only [pasteNodesAux, List.map_cons, List.length_cons, List.range'_succ]
    rw [ih (cst + 1)]

lemma pasteNodesAux_map_isSome (gen : String → Nat → String) (off : ℚ) :
    ∀ (l : List (FlowNode ℚ)) (cst : Nat) (key : String),
      (getA (pasteNodesAux gen off l cst).2.1 key).isSome ↔ key ∈ l.map (·.id) := by
  intro l
  induction l with
  | nil => intro cst key; simp [pasteNodesAux, getA]
  | cons n rest ih =>
    intro cst key
    simp only [pasteNodesAux, List.map_cons, List.mem_cons]
    by_cases hk : key = n.id
    · simp [getA, hk]
    · simp only [getA, if_neg hk]
      rw [ih (cst + 1) key]
      simp [hk]

lemma pasteNodesAux_map_range (gen : String → Nat → String) (off : ℚ) :
    ∀ (l : List (FlowNode ℚ)) (cst : Nat) (key : String) (v : String),
      getA (pasteNodesAux gen off l cst).2.1 key = some v →
      ∃ i, i < l.length ∧ v = gen "node" (cst + i) := by
  intro l
  induction l with
  | nil => intro cst key v h; simp [pasteNodesAux, getA] at h
  | cons n rest ih =>
    intro cst key v h
    simp only [pasteNodesAux] at h
    by_cases hk : key = n.id
    · rw [getA, if_pos hk] at h
      exact ⟨0, by simp, by simpa using (Option.some_injective _ h).symm⟩
    · rw [getA, if_neg hk] at h
      obtain ⟨i, hi, hv⟩ := ih (cst + 1) key v h
      exact ⟨i + 1, by simpa using hi, by rw [hv]; congr 1; omega⟩

lemma pasteEdgesAux_counter_le (gen : String → Nat → String) (off : ℚ)
    (m : List (String × String)) :
    ∀ (l : List (FlowEdge ℚ)) (cst : Nat),
      cst ≤ (pasteEdgesAux gen off m l cst).2 ∧
      (pasteEdgesAux gen off m l cst).2 ≤ cst + l.length := by
  intro l
  induction l with
  | nil => intro cst; simp [pasteEdgesAux]
  | cons e rest ih =>
    intro cst
    simp only [pasteEdgesAux]
    cases h1 : getA m e.sourceId with
    | none => dsimp only; have := ih cst; simp only [List.length_cons]; omega
    | some v1 =>
      cases h2 : getA m e.targetId with
      | none => dsimp only; have := ih cst; simp only [List.length_cons]; omega
      | some v2 =>
        dsimp only
        split_ifs with hemp
        · have := ih cst; simp only [List.length_cons]; omega
        · have := ih (cst + 1); simp only [List.length_cons]; omega

lemma pasteEdgesAux_ids (gen : String → Nat → String) (off : ℚ)
    (m : List (String × String)) :
    ∀ (l : List (FlowEdge ℚ)) (cst : Nat),
      (pasteEdgesAux gen off m l cst).1.map (·.id) =
        (List.range' cst ((pasteEdgesAux gen off m l cst).2 - cst)).map (gen "edge") := by
  intro l
  induction l with
  | nil => intro cst; simp [pasteEdgesAux]
  | cons e rest ih =>
    intro cst
    simp only [pasteEdgesAux]
    cases h1 : getA m e.sourceId with
    | none => dsimp only; exact ih cst
    | some v1 =>
      cases h2 : getA m e.targetId with
      | none => dsimp only; exact ih cst
      | some v2 =>
        dsimp only
        split_ifs with hemp
        · exact ih cst
        · simp only [List.map_cons]
          obtain ⟨hle, -⟩ := pasteEdgesAux_counter_le gen off m rest (cst + 1)
          have hn : (pasteEdgesAux gen off m rest (cst + 1)).2 - cst =
              ((pasteEdgesAux gen off m rest (cst + 1)).2 - (cst + 1)) + 1 := by omega
          rw [hn, List.range'_succ, List.map_cons]
          rw [ih (cst + 1)]

lemma pasteEdgesAux_mem (gen : String → Nat → String) (off : ℚ)
    (m : List (String × String)) :
    ∀ (l : List (FlowEdge ℚ)) (cst : Nat) (e' : FlowEdge ℚ),
      e' ∈ (pasteEdgesAux gen off m l cst).1 →
      ∃ e0 ∈ l, ∃ v1 v2 : String,
        getA m e0.sourceId = some v1 ∧ getA m e0.targetId = some v2 ∧
        e'.sourceId = v1 ∧ e'.targetId = v2 ∧
        e'.bendX = e0.bendX.map (· + off) ∧ e'.bendY = e0.bendY.map (· + off) ∧
        ∃ k, cst ≤ k ∧ e'.id = gen "edge" k := by
  intro l
  induction l with
  | nil => intro cst e' h; simp [pasteEdgesAux] at h
  | cons e rest ih =>
    intro cst e' h
    simp only [pasteEdgesAux] at h
    cases h1 : getA m e.sourceId with
    | none =>
      rw [h1] at h; dsimp only at h
      obtain ⟨e0, he0, rest'⟩ := ih cst e' h
      exact ⟨e0, List.mem_cons_of_mem e he0, rest'⟩
    | some v1 =>
      cases h2 : getA m e.targetId with
      | none =>
        rw [h1, h2] at h; dsimp only at h
        obtain ⟨e0, he0, rest'⟩ := ih cst e' h
        exact ⟨e0, List.mem_cons_of_mem e he0, rest'⟩
      | some v2 =>
        rw [h1, h2] at h; dsimp only at h
        split_ifs at h with hemp
        · obtain ⟨e0, he0, rest'⟩ := ih cst e' h
          exact ⟨e0, List.mem_cons_of_mem e he0, rest'⟩
        · rcases List.mem_cons.mp h with rfl | htail
          · exact ⟨e, List.mem_cons_self e rest, v1, v2, h1, h2, rfl, rfl, rfl, rfl,
              cst, le_refl cst, rfl⟩
          · obtain ⟨e0, he0, v1', v2', ha, hb, hc, hd, he', hf, k, hk, hid⟩ :=
              ih (cst + 1) e' htail
            exact ⟨e0, List.mem_cons_of_mem e he0, v1', v2', ha, hb, hc, hd, he', hf,
              k, by omega, hid⟩

lemma pasteEdgesAux_length_filter (gen : String → Nat → String) (off : ℚ)
    (m : List (String × String)) (hm : ∀ key v, getA m key = some v → v ≠ "") :
    ∀ (l : List (FlowEdge ℚ)) (cst : Nat),
      (pasteEdgesAux gen off m l cst).1.length =
        (l.filter (fun e =>
          (getA m e.sourceId).isSome && (getA m e.targetId).isSome)).length := by
  intro l
  induction l with
  | nil => intro cst; simp [pasteEdgesAux]
  | cons e rest ih =>
    intro cst
    simp only [pasteEdgesAux]
    cases h1 : getA m e.sourceId with
    | none =>
      dsimp only
      rw [List.filter_cons]
      simp only [h1, Option.isSome_none, Bool.false_and, if_neg (by simp : ¬ (false = true))]
      exact ih cst
    | some v1 =>
      cases h2 : getA m e.targetId with
      | none =>
        dsimp only
        rw [List.filter_cons]
        simp only [h1, h2, Option.isSome_none, Option.isSome_some, Bool.and_false,
          if_neg (by simp : ¬ (false = true))]
        exact ih cst
      | some v2 =>
        dsimp only
        split_ifs with hemp
        · exfalso
          rcases hemp with hv1 | hv2
          · exact hm e.sourceId v1 h1 hv1
          · exact hm e.targetId v2 h2 hv2
        · rw [List.filter_cons]
          simp only [h1, h2, Option.isSome_some, Bool.and_self, List.length_cons]
          rw [ih (cst + 1), if_pos trivial]
          simp

lemma commitHistory_fields (t : EditorState) :
    (commitHistory t).nodes = t.nodes ∧ (commitHistory t).edges = t.edges ∧
    (commitHistory t).selectedNodeId = t.selectedNodeId ∧
    (commitHistory t).selectedNodeIds = t.selectedNodeIds ∧
    (commitHistory t).selectedEdgeId = t.selectedEdgeId ∧
    (commitHistory t).connectFromId = t.connectFromId ∧
    (commitHistory t).clipboardData = t.clipboardData ∧
    (commitHistory t).pasteCount = t.pasteCount ∧
    (commitHistory t).nextId = t.nextId := by
  unfold commitHistory
  split_ifs <;> exact ⟨rfl, rfl, rfl, rfl, rfl, rfl, rfl, rfl, rfl⟩

lemma list_mem_range'_one {s n m : Nat} : m ∈ List.range' s n ↔ ∃ i < n, m = s + i := by
  rw [List.mem_range']
  constructor
  · rintro ⟨i, hi, rfl⟩; exact ⟨i, hi, by omega⟩
  · rintro ⟨i, hi, rfl⟩; exact ⟨i, hi, by omega⟩

/-- The observable state after one `pasteClipboard` on a non-empty
clipboard: nodes and edges are the old ones plus the two processing passes'
output, the pasted nodes are the selection, the edge selection and connect
state are cleared, the paste counter is bumped and the id counter advanced. -/
lemma paste_post (gen : String → Nat → String) (s : EditorState)
    (clip : DiagramSnapshot ℚ) (hclip : s.clipboardData = some clip)
    (hne : clip.nodes ≠ []) :
    (pasteClipboard gen s).nodes = s.nodes ++
      (pasteNodesAux gen (28 * ((s.pasteCount + 1 : Nat) : ℚ)) clip.nodes s.nextId).1 ∧
    (pasteClipboard gen s).edges = s.edges ++
      (pasteEdgesAux gen (28 * ((s.pasteCount + 1 : Nat) : ℚ))
        (pasteNodesAux gen (28 * ((s.pasteCount + 1 : Nat) : ℚ)) clip.nodes s.nextId).2.1
        clip.edges
        (pasteNodesAux gen (28 * ((s.pasteCount + 1 : Nat) : ℚ)) clip.nodes s.nextId).2.2).1 ∧
    (pasteClipboard gen s).selectedNodeIds =
      (pasteNodesAux gen (28 * ((s.pasteCount + 1 : Nat) : ℚ)) clip.nodes s.nextId).1.map
        (·.id) ∧
    (pasteClipboard gen s).selectedEdgeId = "" ∧
    (pasteClipboard gen s).clipboardData = some clip ∧
    (pasteClipboard gen s).pasteCount = s.pasteCount + 1 ∧
    (pasteClipboard gen s).nextId =
      (pasteEdgesAux gen (28 * ((s.pasteCount + 1 : Nat) : ℚ))
        (pasteNodesAux gen (28 * ((s.pasteCount + 1 : Nat) : ℚ)) clip.nodes s.nextId).2.1
        clip.edges
        (pasteNodesAux gen (28 * ((s.pasteCount + 1 : Nat) : ℚ)) clip.nodes s.nextId).2.2).2 := by
  have hne' : ¬ clip.nodes.length = 0 := by
    simpa [List.length_eq_zero] using hne
  rw [pasteClipboard_eq gen s clip hclip hne']
  obtain ⟨f1, f2, -, f4, f5, -, f7, f8, f9⟩ := commitHistory_fields
    { s with
      nodes := s.nodes ++
        (pasteNodesAux gen (28 * ((s.pasteCount + 1 : Nat) : ℚ)) clip.nodes s.nextId).1,
      edges := s.edges ++
        (pasteEdgesAux gen (28 * ((s.pasteCount + 1 : Nat) : ℚ))
          (pasteNodesAux gen (28 * ((s.pasteCount + 1 : Nat) : ℚ)) clip.nodes s.nextId).2.1
          clip.edges
          (pasteNodesAux gen (28 * ((s.pasteCount + 1 : Nat) : ℚ)) clip.nodes
            s.nextId).2.2).1,
      selectedNodeIds :=
        (pasteNodesAux gen (28 * ((s.pasteCount + 1 : Nat) : ℚ)) clip.nodes s.nextId).1.map
          (·.id),
      selectedNodeId :=
        ((pasteNodesAux gen (28 * ((s.pasteCount + 1 : Nat) : ℚ)) clip.nodes s.nextId).1.map
          (·.id)).headD "",
      selectedEdgeId := "", connectFromId := "",
      pasteCount := s.pasteCount + 1,
      nextId :=
        (pasteEdgesAux gen (28 * ((s.pasteCount + 1 : Nat) : ℚ))
          (pasteNodesAux gen (28 * ((s.pasteCount + 1 : Nat) : ℚ)) clip.nodes s.nextId).2.1
          clip.edges
          (pasteNodesAux gen (28 * ((s.pasteCount + 1 : Nat) : ℚ)) clip.nodes
            s.nextId).2.2).2 }
  exact ⟨f1, f2, f4, f5, by rw [f7]; exact hclip, f8, f9⟩

/-- When the history is ready, the index is at the end and there is room
below the 80-snapshot cap, `commitHistory` appends exactly one snapshot of
the current diagram and moves the index to it. -/
lemma commitHistory_append (t : EditorState)
    (hready : t.historyReady = true)
    (hidx : t.historyIndex = (t.history.length : Int) - 1)
    (hlen1 : 1 ≤ t.history.length) (hlen : t.history.length < 80) :
    (commitHistory t).history = t.history ++ [DiagramSnapshot.mk t.nodes t.edges] ∧
    (commitHistory t).historyIndex = (t.history.length : Int) := by
  obtain ⟨hh, -, -, ⟨-, hix, -, -⟩, -, -⟩ :=
    commitHistory_spec t ⟨hready, hidx, hlen1, Nat.le_of_lt hlen⟩
  have hdrop0 : t.history.length + 1 - 80 = 0 := by omega
  rw [hdrop0, List.drop_zero] at hh
  refine ⟨hh, ?_⟩
  rw [hix, hh]
  simp [List.length_append]

/-- One `pasteClipboard` on a non-empty clipboard commits history exactly
once: one snapshot of the post-paste diagram is appended and the index
moves to it. -/
lemma paste_history (gen : String → Nat → String) (s : EditorState)
    (clip : DiagramSnapshot ℚ) (hclip : s.clipboardData = some clip)
    (hne : clip.nodes ≠ []) (hready : s.historyReady = true)
    (hidx : s.historyIndex = (s.history.length : Int) - 1)
    (hlen1 : 1 ≤ s.history.length) (hlen : s.history.length < 80) :
    (pasteClipboard gen s).history = s.history ++
      [DiagramSnapshot.mk (pasteClipboard gen s).nodes (pasteClipboard gen s).edges] ∧
    (pasteClipboard gen s).historyIndex = (s.history.length : Int) := by
  have hne' : ¬ clip.nodes.length = 0 := by
    simpa [List.length_eq_zero] using hne
  rw [pasteClipboard_eq gen s clip hclip hne']
  obtain ⟨hh, hix⟩ := commitHistory_append
    { s with
      nodes := s.nodes ++
        (pasteNodesAux gen (28 * ((s.pasteCount + 1 : Nat) : ℚ)) clip.nodes s.nextId).1,
      edges := s.edges ++
        (pasteEdgesAux gen (28 * ((s.pasteCount + 1 : Nat) : ℚ))
          (pasteNodesAux gen (28 * ((s.pasteCount + 1 : Nat) : ℚ)) clip.nodes s.nextId).2.1
          clip.edges
          (pasteNodesAux gen (28 * ((s.pasteCount + 1 : Nat) : ℚ)) clip.nodes s.nextId).2.2).1,
      selectedNodeIds :=
        (pasteNodesAux gen (28 * ((s.pasteCount + 1 : Nat) : ℚ)) clip.nodes s.nextId).1.map
          (·.id),
      selectedNodeId :=
        ((pasteNodesAux gen (28 * ((s.pasteCount + 1 : Nat) : ℚ)) clip.nodes s.nextId).1.map
          (·.id)).headD "",
      selectedEdgeId := "", connectFromId := "",
      pasteCount := s.pasteCount + 1,
      nextId :=
        (pasteEdgesAux gen (28 * ((s.pasteCount + 1 : Nat) : ℚ))
          (pasteNodesAux gen (28 * ((s.pasteCount + 1 : Nat) : ℚ)) clip.nodes s.nextId).2.1
          clip.edges
          (pasteNodesAux gen (28 * ((s.pasteCount + 1 : Nat) : ℚ)) clip.nodes s.nextId).2.2).2 }
    hready hidx hlen1 hlen
  obtain ⟨f1, f2, -, -, -, -, -, -, -⟩ := commitHistory_fields
    { s with
      nodes := s.nodes ++
        (pasteNodesAux gen (28 * ((s.pasteCount + 1 : Nat) : ℚ)) clip.nodes s.nextId).1,
      edges := s.edges ++
        (pasteEdgesAux gen (28 * ((s.pasteCount + 1 : Nat) : ℚ))
          (pasteNodesAux gen (28 * ((s.pasteCount + 1 : Nat) : ℚ)) clip.nodes s.nextId).2.1
          clip.edges
          (pasteNodesAux gen (28 * ((s.pasteCount + 1 : Nat) : ℚ)) clip.nodes s.nextId).2.2).1,
      selectedNodeIds :=
        (pasteNodesAux gen (28 * ((s.pasteCount + 1 : Nat) : ℚ)) clip.nodes s.nextId).1.map
          (·.id),
      selectedNodeId :=
        ((pasteNodesAux gen (28 * ((s.pasteCount + 1 : Nat) : ℚ)) clip.nodes s.nextId).1.map
          (·.id)).headD "",
      selectedEdgeId := "", connectFromId := "",
      pasteCount := s.pasteCount + 1,
      nextId :=
        (pasteEdgesAux gen (28 * ((s.pasteCount + 1 : Nat) : ℚ))
          (pasteNodesAux gen (28 * ((s.pasteCount + 1 : Nat) : ℚ)) clip.nodes s.nextId).2.1
          clip.edges
          (pasteNodesAux gen (28 * ((s.pasteCount + 1 : Nat) : ℚ)) clip.nodes s.nextId).2.2).2 }
  refine ⟨?_, hix⟩
  rw [hh, f1, f2]

/-- `commitHistory` never touches the `historyReady` flag. -/
lemma commitHistory_ready (t : EditorState) :
    (commitHistory t).historyReady = t.historyReady := by
  unfold commitHistory
  split_ifs <;> rfl

/-- The complete observable effect of one `pasteClipboard` on a non-empty
clipboard, with the cumulative offset `28 * (pasteCount + 1)` left
symbolic: original diagram preserved as a prefix, pasted nodes appended
with generated ids and the offset applied, pasted edges remapped to pasted
node ids with bends offset (edges with an unmapped endpoint dropped), all
pasted ids fresh and distinct, pasted nodes selected, exactly one history
commit, and the chaining facts (clipboard kept, paste counter bumped,
history still ready, id counter advanced past every generated index)
needed to apply this lemma again to the post-paste state. -/
lemma paste_spec (gen : String → Nat → String) (s : EditorState)
    (clip : DiagramSnapshot ℚ)
    (hclip : s.clipboardData = some clip) (hne : clip.nodes ≠ [])
    (hinjN : ∀ k1 k2 : Nat, gen "node" k1 = gen "node" k2 → k1 = k2)
    (hinjE : ∀ k1 k2 : Nat, gen "edge" k1 = gen "edge" k2 → k1 = k2)
    (hneNE : ∀ k1 k2 : Nat, gen "node" k1 ≠ gen "edge" k2)
    (hblank : ∀ (p : String) (k : Nat), gen p k ≠ "")
    (hfreshN : ∀ k : Nat, s.nextId ≤ k →
      gen "node" k ∉ s.nodes.map (fun n => n.id) ∧
      gen "node" k ∉ s.edges.map (fun e => e.id))
    (hfreshE : ∀ k : Nat, s.nextId ≤ k →
      gen "edge" k ∉ s.nodes.map (fun n => n.id) ∧
      gen "edge" k ∉ s.edges.map (fun e => e.id))
    (hready : s.historyReady = true)
    (hidx : s.historyIndex = (s.history.length : Int) - 1)
    (hlen1 : 1 ≤ s.history.length) (hlen : s.history.length < 80) :
    (pasteClipboard gen s).nodes.take s.nodes.length = s.nodes ∧
    ((pasteClipboard gen s).nodes.drop s.nodes.length).length = clip.nodes.length ∧
    (∀ i : Nat, ((pasteClipboard gen s).nodes.drop s.nodes.length).get? i =
      (clip.nodes.get? i).map (fun n =>
        { n with id := gen "node" (s.nextId + i),
                 x := n.x + 28 * ((s.pasteCount + 1 : Nat) : ℚ),
                 y := n.y + 28 * ((s.pasteCount + 1 : Nat) : ℚ) })) ∧
    (∀ e ∈ (pasteClipboard gen s).edges.drop s.edges.length,
      e.sourceId ∈ ((pasteClipboard gen s).nodes.drop s.nodes.length).map
        (fun n => n.id) ∧
      e.targetId ∈ ((pasteClipboard gen s).nodes.drop s.nodes.length).map
        (fun n => n.id) ∧
      (∃ orig ∈ clip.edges,
        e.bendX = orig.bendX.map (fun q => q + 28 * ((s.pasteCount + 1 : Nat) : ℚ)) ∧
        e.bendY = orig.bendY.map (fun q => q + 28 * ((s.pasteCount + 1 : Nat) : ℚ))) ∧
      ∃ k, s.nextId ≤ k ∧ e.id = gen "edge" k) ∧
    ((pasteClipboard gen s).edges.drop s.edges.length).length =
      (clip.edges.filter (fun e =>
        decide (e.sourceId ∈ clip.nodes.map (fun n => n.id)) &&
        decide (e.targetId ∈ clip.nodes.map (fun n => n.id)))).length ∧
    (pasteClipboard gen s).edges.take s.edges.length = s.edges ∧
    (∀ x ∈ ((pasteClipboard gen s).nodes.drop s.nodes.length).map (fun n => n.id) ++
        ((pasteClipboard gen s).edges.drop s.edges.length).map (fun e => e.id),
      x ∉ s.nodes.map (fun n => n.id) ∧ x ∉ s.edges.map (fun e => e.id)) ∧
    (((pasteClipboard gen s).nodes.drop s.nodes.length).map (fun n => n.id) ++
      ((pasteClipboard gen s).edges.drop s.edges.length).map (fun e => e.id)).Nodup ∧
    (pasteClipboard gen s).selectedNodeIds =
      ((pasteClipboard gen s).nodes.drop s.nodes.length).map (fun n => n.id) ∧
    (pasteClipboard gen s).selectedEdgeId = "" ∧
    (pasteClipboard gen s).history = s.history ++
      [DiagramSnapshot.mk (pasteClipboard gen s).nodes (pasteClipboard gen s).edges] ∧
    (pasteClipboard gen s).historyIndex = (s.history.length : Int) ∧
    (pasteClipboard gen s).clipboardData = some clip ∧
    (pasteClipboard gen s).pasteCount = s.pasteCount + 1 ∧
    (pasteClipboard gen s).historyReady = true ∧
    s.nextId ≤ (pasteClipboard gen s).nextId ∧
    (∀ x ∈ ((pasteClipboard gen s).nodes.drop s.nodes.length).map (fun n => n.id),
      ∃ j, j < (pasteClipboard gen s).nextId ∧ x = gen "node" j) ∧
    (∀ x ∈ ((pasteClipboard gen s).edges.drop s.edges.length).map (fun e => e.id),
      ∃ j, j < (pasteClipboard gen s).nextId ∧ x = gen "edge" j) := by
  have hne' : ¬ clip.nodes.length = 0 := by
    simpa [List.length_eq_zero] using hne
  obtain ⟨f1, f2, f3, f4, f5, f6, f7⟩ := paste_post gen s clip hclip hne
  have hdropN : (pasteClipboard gen s).nodes.drop s.nodes.length =
      (pasteNodesAux gen (28 * ((s.pasteCount + 1 : Nat) : ℚ)) clip.nodes s.nextId).1 := by
    rw [f1, List.drop_left]
  have hdropE : (pasteClipboard gen s).edges.drop s.edges.length =
      (pasteEdgesAux gen (28 * ((s.pasteCount + 1 : Nat) : ℚ))
        (pasteNodesAux gen (28 * ((s.pasteCount + 1 : Nat) : ℚ)) clip.nodes s.nextId).2.1
        clip.edges
        (pasteNodesAux gen (28 * ((s.pasteCount + 1 : Nat) : ℚ)) clip.nodes
          s.nextId).2.2).1 := by
    rw [f2, List.drop_left]
  have hcnt := pasteNodesAux_counter gen (28 * ((s.pasteCount + 1 : Nat) : ℚ))
    clip.nodes s.nextId
  have hece := pasteEdgesAux_counter_le gen (28 * ((s.pasteCount + 1 : Nat) : ℚ))
    (pasteNodesAux gen (28 * ((s.pasteCount + 1 : Nat) : ℚ)) clip.nodes s.nextId).2.1
    clip.edges
    (pasteNodesAux gen (28 * ((s.pasteCount + 1 : Nat) : ℚ)) clip.nodes s.nextId).2.2
  obtain ⟨h10, h11⟩ := paste_history gen s clip hclip hne hready hidx hlen1 hlen
  have h15 : (pasteClipboard gen s).historyReady = true := by
    rw [pasteClipboard_eq gen s clip hclip hne', commitHistory_ready]
    exact hready
  have h16 : s.nextId ≤ (pasteClipboard gen s).nextId := by
    rw [f7]
    have h1 := hece.1
    omega
  refine ⟨?_, ?_, ?_, ?_, ?_, ?_, ?_, ?_, ?_, f4, h10, h11, f5, f6, h15, h16, ?_, ?_⟩
  · rw [f1, List.take_left]
  · rw [hdropN]
    exact pasteNodesAux_length gen _ clip.nodes s.nextId
  · intro i
    rw [hdropN, pasteNodesAux_get]
  · intro e hme
    rw [hdropE] at hme
    obtain ⟨e0, he0, v1, v2, hv1, hv2, hs, ht, hbx, hby, k, hk, hid⟩ :=
      pasteEdgesAux_mem gen _ _ clip.edges _ e hme
    refine ⟨?_, ?_, ⟨e0, he0, hbx, hby⟩, k, by omega, hid⟩
    · rw [hs, hdropN, pasteNodesAux_ids]
      obtain ⟨i, hi, rfl⟩ := pasteNodesAux_map_range gen _ clip.nodes s.nextId _ v1 hv1
      exact List.mem_map.mpr ⟨s.nextId + i, list_mem_range'_one.mpr ⟨i, hi, rfl⟩, rfl⟩
    · rw [ht, hdropN, pasteNodesAux_ids]
      obtain ⟨i, hi, rfl⟩ := pasteNodesAux_map_range gen _ clip.nodes s.nextId _ v2 hv2
      exact List.mem_map.mpr ⟨s.nextId + i, list_mem_range'_one.mpr ⟨i, hi, rfl⟩, rfl⟩
  · have hm : ∀ key v,
        getA (pasteNodesAux gen (28 * ((s.pasteCount + 1 : Nat) : ℚ)) clip.nodes
          s.nextId).2.1 key = some v → v ≠ "" := by
      intro key v hv
      obtain ⟨i, -, rfl⟩ := pasteNodesAux_map_range gen _ clip.nodes s.nextId key v hv
      exact hblank _ _
    rw [hdropE, pasteEdgesAux_length_filter gen (28 * ((s.pasteCount + 1 : Nat) : ℚ)) _ hm]
    congr 1
    apply List.filter_congr
    intro e he
    apply Bool.eq_iff_iff.mpr
    simp only [Bool.and_eq_true, decide_eq_true_eq]
    rw [pasteNodesAux_map_isSome, pasteNodesAux_map_isSome]
  · rw [f2, List.take_left]
  · intro x hx
    rw [hdropN, hdropE, pasteNodesAux_ids, pasteEdgesAux_ids] at hx
    rcases List.mem_append.mp hx with hxn | hxe
    · obtain ⟨k, hkmem, rfl⟩ := List.mem_map.mp hxn
      obtain ⟨i, hi, rfl⟩ := list_mem_range'_one.mp hkmem
      exact hfreshN (s.nextId + i) (by omega)
    · obtain ⟨k, hkmem, rfl⟩ := List.mem_map.mp hxe
      obtain ⟨i, hi, rfl⟩ := list_mem_range'_one.mp hkmem
      exact hfreshE _ (by omega)
  · rw [hdropN, hdropE, pasteNodesAux_ids, pasteEdgesAux_ids, List.nodup_append]
    refine ⟨?_, ?_, ?_⟩
    · exact List.Nodup.map_on (fun a _ b _ h => hinjN a b h) (List.nodup_range' _ _)
    · exact List.Nodup.map_on (fun a _ b _ h => hinjE a b h) (List.nodup_range' _ _)
    · intro x hxn hxe
      obtain ⟨k1, -, rfl⟩ := List.mem_map.mp hxn
      obtain ⟨k2, -, hk2⟩ := List.mem_map.mp hxe
      exact hneNE k1 k2 hk2.symm
  · rw [hdropN]
    exact f3
  · intro x hx
    rw [hdropN, pasteNodesAux_ids] at hx
    obtain ⟨k, hkmem, rfl⟩ := List.mem_map.mp hx
    obtain ⟨i, hi, rfl⟩ := list_mem_range'_one.mp hkmem
    refine ⟨s.nextId + i, ?_, rfl⟩
    rw [f7]
    have h1 := hece.1
    omega
  · intro x hx
    rw [hdropE, pasteEdgesAux_ids] at hx
    obtain ⟨k, hkmem, rfl⟩ := List.mem_map.mp hx
    obtain ⟨i, hi, rfl⟩ := list_mem_range'_one.mp hkmem
    refine ⟨_, ?_, rfl⟩
    rw [f7]
    omega

/-- Claim C4: for every non-empty clipboard, pasting twice in a row
produces two pasted node groups whose coordinates and explicit bends are
offset by exactly 28 and 56 units respectively from the copied originals;
in each paste every pasted node and edge receives a fresh id (absent from
that paste's pre-paste diagram — for the second paste this includes the
first paste's copies — and all distinct), every pasted edge's endpoints
resolve to ids of nodes pasted in the same operation, edges whose original
endpoints are not both in the copied node set are dropped, the pasted
nodes become the new selection, and each of the two pastes commits history
exactly once. -/
theorem claim_C4 (gen : String → Nat → String) (s : EditorState)
    (clip : DiagramSnapshot ℚ)
    (hclip : s.clipboardData = some clip) (hne : clip.nodes ≠ [])
    (hpc : s.pasteCount = 0)
    (hinjN : ∀ k1 k2 : Nat, gen "node" k1 = gen "node" k2 → k1 = k2)
    (hinjE : ∀ k1 k2 : Nat, gen "edge" k1 = gen "edge" k2 → k1 = k2)
    (hneNE : ∀ k1 k2 : Nat, gen "node" k1 ≠ gen "edge" k2)
    (hblank : ∀ (p : String) (k : Nat), gen p k ≠ "")
    (hfreshN : ∀ k : Nat, s.nextId ≤ k →
      gen "node" k ∉ s.nodes.map (fun n => n.id) ∧
      gen "node" k ∉ s.edges.map (fun e => e.id))
    (hfreshE : ∀ k : Nat, s.nextId ≤ k →
      gen "edge" k ∉ s.nodes.map (fun n => n.id) ∧
      gen "edge" k ∉ s.edges.map (fun e => e.id))
    (hready : s.historyReady = true)
    (hidx : s.historyIndex = (s.history.length : Int) - 1)
    (hlen1 : 1 ≤ s.history.length) (hlen : s.history.length < 79) :
    (pasteClipboard gen s).nodes.take s.nodes.length = s.nodes ∧
    ((pasteClipboard gen s).nodes.drop s.nodes.length).length = clip.nodes.length ∧
    (∀ i : Nat, ((pasteClipboard gen s).nodes.drop s.nodes.length).get? i =
      (clip.nodes.get? i).map (fun n =>
        { n with id := gen "node" (s.nextId + i), x := n.x + 28, y := n.y + 28 })) ∧
    (∀ e ∈ (pasteClipboard gen s).edges.drop s.edges.length,
      e.sourceId ∈ ((pasteClipboard gen s).nodes.drop s.nodes.length).map
        (fun n => n.id) ∧
      e.targetId ∈ ((pasteClipboard gen s).nodes.drop s.nodes.length).map
        (fun n => n.id) ∧
      (∃ orig ∈ clip.edges, e.bendX = orig.bendX.map (fun q => q + 28) ∧
        e.bendY = orig.bendY.map (fun q => q + 28)) ∧
      ∃ k, s.nextId ≤ k ∧ e.id = gen "edge" k) ∧
    ((pasteClipboard gen s).edges.drop s.edges.length).length =
      (clip.edges.filter (fun e =>
        decide (e.sourceId ∈ clip.nodes.map (fun n => n.id)) &&
        decide (e.targetId ∈ clip.nodes.map (fun n => n.id)))).length ∧
    (∀ x ∈ ((pasteClipboard gen s).nodes.drop s.nodes.length).map (fun n => n.id) ++
        ((pasteClipboard gen s).edges.drop s.edges.length).map (fun e => e.id),
      x ∉ s.nodes.map (fun n => n.id) ∧ x ∉ s.edges.map (fun e => e.id)) ∧
    (((pasteClipboard gen s).nodes.drop s.nodes.length).map (fun n => n.id) ++
      ((pasteClipboard gen s).edges.drop s.edges.length).map (fun e => e.id)).Nodup ∧
    (pasteClipboard gen s).selectedNodeIds =
      ((pasteClipboard gen s).nodes.drop s.nodes.length).map (fun n => n.id) ∧
    (pasteClipboard gen s).selectedEdgeId = "" ∧
    (pasteClipboard gen s).history = s.history ++
      [DiagramSnapshot.mk (pasteClipboard gen s).nodes (pasteClipboard gen s).edges] ∧
    (pasteClipboard gen s).historyIndex = (s.history.length : Int) ∧
    (pasteClipboard gen (pasteClipboard gen s)).nodes.take
      (pasteClipboard gen s).nodes.length = (pasteClipboard gen s).nodes ∧
    ((pasteClipboard gen (pasteClipboard gen s)).nodes.drop
      (pasteClipboard gen s).nodes.length).length = clip.nodes.length ∧
    (∀ i : Nat, ((pasteClipboard gen (pasteClipboard gen s)).nodes.drop
        (pasteClipboard gen s).nodes.length).get? i =
      (clip.nodes.get? i).map (fun n =>
        { n with id := gen "node" ((pasteClipboard gen s).nextId + i),
                 x := n.x + 56, y := n.y + 56 })) ∧
    (∀ e ∈ (pasteClipboard gen (pasteClipboard gen s)).edges.drop
        (pasteClipboard gen s).edges.length,
      e.sourceId ∈ ((pasteClipboard gen (pasteClipboard gen s)).nodes.drop
        (pasteClipboard gen s).nodes.length).map (fun n => n.id) ∧
      e.targetId ∈ ((pasteClipboard gen (pasteClipboard gen s)).nodes.drop
        (pasteClipboard gen s).nodes.length).map (fun n => n.id) ∧
      (∃ orig ∈ clip.edges, e.bendX = orig.bendX.map (fun q => q + 56) ∧
        e.bendY = orig.bendY.map (fun q => q + 56)) ∧
      ∃ k, (pasteClipboard gen s).nextId ≤ k ∧ e.id = gen "edge" k) ∧
    ((pasteClipboard gen (pasteClipboard gen s)).edges.drop
      (pasteClipboard gen s).edges.length).length =
      (clip.edges.filter (fun e =>
        decide (e.sourceId ∈ clip.nodes.map (fun n => n.id)) &&
        decide (e.targetId ∈ clip.nodes.map (fun n => n.id)))).length ∧
    (∀ x ∈ ((pasteClipboard gen (pasteClipboard gen s)).nodes.drop
        (pasteClipboard gen s).nodes.length).map (fun n => n.id) ++
        ((pasteClipboard gen (pasteClipboard gen s)).edges.drop
          (pasteClipboard gen s).edges.length).map (fun e => e.id),
      x ∉ (pasteClipboard gen s).nodes.map (fun n => n.id) ∧
      x ∉ (pasteClipboard gen s).edges.map (fun e => e.id)) ∧
    (((pasteClipboard gen (pasteClipboard gen s)).nodes.drop
        (pasteClipboard gen s).nodes.length).map (fun n => n.id) ++
      ((pasteClipboard gen (pasteClipboard gen s)).edges.drop
        (pasteClipboard gen s).edges.length).map (fun e => e.id)).Nodup ∧
    (pasteClipboard gen (pasteClipboard gen s)).selectedNodeIds =
      ((pasteClipboard gen (pasteClipboard gen s)).nodes.drop
        (pasteClipboard gen s).nodes.length).map (fun n => n.id) ∧
    (pasteClipboard gen (pasteClipboard gen s)).selectedEdgeId = "" ∧
    (pasteClipboard gen (pasteClipboard gen s)).history =
      (pasteClipboard gen s).history ++
      [DiagramSnapshot.mk (pasteClipboard gen (pasteClipboard gen s)).nodes
        (pasteClipboard gen (pasteClipboard gen s)).edges] ∧
    (pasteClipboard gen (pasteClipboard gen s)).historyIndex =
      ((pasteClipboard gen s).history.length : Int) := by
  obtain ⟨a1, a2, a3, a4, a5, a6, a7, a8, a9, a10, a11, a12, a13, a14, a15, a16,
      a17, a18⟩ :=
    paste_spec gen s clip hclip hne hinjN hinjE hneNE hblank hfreshN hfreshE
      hready hidx hlen1 (by omega)
  have hoff1 : (28 : ℚ) * ((s.pasteCount + 1 : Nat) : ℚ) = 28 := by
    rw [hpc]; norm_num
  rw [hoff1] at a3 a4
  have hsplitN : (pasteClipboard gen s).nodes =
      s.nodes ++ (pasteClipboard gen s).nodes.drop s.nodes.length := by
    conv_lhs => rw [← List.take_append_drop s.nodes.length (pasteClipboard gen s).nodes]
    rw [a1]
  have hsplitE : (pasteClipboard gen s).edges =
      s.edges ++ (pasteClipboard gen s).edges.drop s.edges.length := by
    conv_lhs => rw [← List.take_append_drop s.edges.length (pasteClipboard gen s).edges]
    rw [a6]
  have hlenS1 : (pasteClipboard gen s).history.length = s.history.length + 1 := by
    rw [a11]
    simp
  have hidx1 : (pasteClipboard gen s).historyIndex =
      ((pasteClipboard gen s).history.length : Int) - 1 := by
    rw [a12, hlenS1]
    push_cast
    ring
  have hfreshN1 : ∀ k : Nat, (pasteClipboard gen s).nextId ≤ k →
      gen "node" k ∉ (pasteClipboard gen s).nodes.map (fun n => n.id) ∧
      gen "node" k ∉ (pasteClipboard gen s).edges.map (fun e => e.id) := by
    intro k hk
    have hk' : s.nextId ≤ k := le_trans a16 hk
    constructor
    · intro hmem
      rw [hsplitN, List.map_append] at hmem
      rcases List.mem_append.mp hmem with hmo | hmp
      · exact (hfreshN k hk').1 hmo
      · obtain ⟨j, hj, hje⟩ := a17 _ hmp
        have := hinjN k j hje
        omega
    · intro hmem
      rw [hsplitE, List.map_append] at hmem
      rcases List.mem_append.mp hmem with hmo | hmp
      · exact (hfreshN k hk').2 hmo
      · obtain ⟨j, hj, hje⟩ := a18 _ hmp
        exact hneNE k j hje
  have hfreshE1 : ∀ k : Nat, (pasteClipboard gen s).nextId ≤ k →
      gen "edge" k ∉ (pasteClipboard gen s).nodes.map (fun n => n.id) ∧
      gen "edge" k ∉ (pasteClipboard gen s).edges.map (fun e => e.id) := by
    intro k hk
    have hk' : s.nextId ≤ k := le_trans a16 hk
    constructor
    · intro hmem
      rw [hsplitN, List.map_append] at hmem
      rcases List.mem_append.mp hmem with hmo | hmp
      · exact (hfreshE k hk').1 hmo
      · obtain ⟨j, hj, hje⟩ := a17 _ hmp
        exact hneNE j k hje.symm
    · intro hmem
      rw [hsplitE, List.map_append] at hmem
      rcases List.mem_append.mp hmem with hmo | hmp
      · exact (hfreshE k hk').2 hmo
      · obtain ⟨j, hj, hje⟩ := a18 _ hmp
        have := hinjE k j hje
        omega
  obtain ⟨b1, b2, b3, b4, b5, b6, b7, b8, b9, b10, b11, b12, b13, b14, b15, b16,
      b17, b18⟩ :=
    paste_spec gen (pasteClipboard gen s) clip a13 hne hinjN hinjE hneNE hblank
      hfreshN1 hfreshE1 a15 hidx1 (by omega) (by omega)
  have hoff2 : (28 : ℚ) * (((pasteClipboard gen s).pasteCount + 1 : Nat) : ℚ) = 56 := by
    rw [a14, hpc]
    norm_num
  rw [hoff2] at b3 b4
  exact ⟨a1, a2, a3, a4, a5, a7, a8, a9, a10, a11, a12,
    b1, b2, b3, b4, b5, b7, b8, b9, b10, b11, b12⟩

/-- A concrete id generator for exercising the paste theorem: `k+1` copies
of a letter chosen by the prefix, which is injective per prefix, never
blank, and never collides across the two prefixes. -/
def genW (p : String) (k : Nat) : String :=
  ⟨List.replicate (k + 1) (if p = "node" then 'n' else 'e')⟩

def c4NodeW : FlowNode ℚ :=
  { id := "n1", type := FlowNodeType.process, text := "P", x := 3, y := 4,
    width := 10, height := 6 }

def c4Clip : DiagramSnapshot ℚ := ⟨[c4NodeW], []⟩

def c4S : EditorState :=
  { nodes := [], edges := [], clipboardData := some c4Clip,
    history := [emptySnap], historyIndex := 0, historyReady := true }

theorem claim_C4_witness :
    ((pasteClipboard genW c4S).nodes.drop c4S.nodes.length).length =
      c4Clip.nodes.length ∧
    (pasteClipboard genW c4S).selectedNodeIds =
      ((pasteClipboard genW c4S).nodes.drop c4S.nodes.length).map (fun n => n.id) ∧
    (pasteClipboard genW c4S).selectedEdgeId = "" ∧
    (pasteClipboard genW c4S).history = c4S.history ++
      [DiagramSnapshot.mk (pasteClipboard genW c4S).nodes
        (pasteClipboard genW c4S).edges] ∧
    ((pasteClipboard genW (pasteClipboard genW c4S)).nodes.drop
      (pasteClipboard genW c4S).nodes.length).length = c4Clip.nodes.length ∧
    (pasteClipboard genW (pasteClipboard genW c4S)).selectedEdgeId = "" := by
  obtain ⟨-, a2, -, -, -, -, -, a9, a10, a11, -, -, b2, -, -, -, -, -, -, b10,
      -, -⟩ :=
    claim_C4 genW c4S c4Clip rfl (by decide) rfl
      (by intro k1 k2 h
          have h2 := congrArg (fun t : String => t.data.length) h
          simp only [genW, List.length_replicate] at h2
          omega)
      (by intro k1 k2 h
          have h2 := congrArg (fun t : String => t.data.length) h
          simp only [genW, List.length_replicate] at h2
          omega)
      (by intro k1 k2 h
          have h2 := congrArg (fun t : String => t.data.headD 'x') h
          simp only [genW] at h2
          rw [if_pos trivial, if_neg (by decide)] at h2
          simp only [List.replicate_succ, List.headD_cons] at h2
          exact absurd h2 (by decide))
      (by intro p k h
          have h2 := congrArg (fun t : String => t.data.length) h
          have h0 : ("" : String).data.length = 0 := rfl
          simp only [genW, List.length_replicate, h0] at h2
          omega)
      (by intro k _
          simp [c4S])
      (by intro k _
          simp [c4S])
      rfl (by decide) (by decide) (by decide)
  exact ⟨a2, a9, a10, a11, b2, b10⟩

/-! ## Boundary-point correctness (claim C1) -/

/-- A point lies on a segment: it is a convex combination of the two
endpoints (spec-side description of "lies on one of the quadrilateral's
four segments"). -/
def onIoSeg (p : ℝ × ℝ) (s : (ℝ × ℝ) × (ℝ × ℝ)) : Prop :=
  ∃ u : ℝ, 0 ≤ u ∧ u ≤ 1 ∧ p.1 = s.1.1 + u * (s.2.1 - s.1.1) ∧
    p.2 = s.1.2 + u * (s.2.2 - s.1.2)

/-- The analytic outline of each node kind, as stated by the spec: the
ellipse equation for start/end, the L1 diamond equation for decision, the
rectangle boundary for process, and membership in one of the four
quadrilateral segments for io. -/
def onOutline (n : FlowNode ℝ) (p : ℝ × ℝ) : Prop :=
  let hw := n.width / 2
  let hh := n.height / 2
  let dx := p.1 - n.x
  let dy := p.2 - n.y
  match n.type with
  | .start | .«end» => (dx / hw) ^ 2 + (dy / hh) ^ 2 = 1
  | .decision => |dx| / hw + |dy| / hh = 1
  | .process => |dx| = hw ∨ |dy| = hh
  | .io => ∃ s ∈ ioSegs n, onIoSeg p s

/-- When `raySegmentIntersection` returns a hit, the hit point lies on the
segment (it is the segment point at the computed parameter `u ∈ [0,1]`). -/
lemma raySeg_on_segment (ox oy dx dy ax ay bx by' px py t : ℝ)
    (h : raySegmentIntersection ox oy dx dy ax ay bx by' = some (px, py, t)) :
    ∃ u : ℝ, 0 ≤ u ∧ u ≤ 1 ∧ px = ax + u * (bx - ax) ∧ py = ay + u * (by' - ay) := by
  simp only [raySegmentIntersection] at h
  split_ifs at h with h1 h2
  rw [Option.some.injEq, Prod.mk.injEq, Prod.mk.injEq] at h
  obtain ⟨hpx, hpy, -⟩ := h
  have hcross : dx * (by' - ay) - dy * (bx - ax) ≠ 0 := by
    intro h0
    rw [h0] at h1
    norm_num at h1
  refine ⟨((ax - ox) * dy - (ay - oy) * dx) / (dx * (by' - ay) - dy * (bx - ax)),
    h2.2.1, h2.2.2, ?_, ?_⟩
  · rw [← hpx]; field_simp; ring
  · rw [← hpy]; field_simp; ring

/-- `raySegmentIntersection` returns a hit once the cross product clears
the parallel guard and the (explicitly supplied) ray and segment parameters
are in range. -/
lemma raySeg_isSome (ox oy dx dy ax ay bx by' cross tN uN : ℝ)
    (hcrossEq : dx * (by' - ay) - dy * (bx - ax) = cross)
    (htN : (ax - ox) * (by' - ay) - (ay - oy) * (bx - ax) = tN)
    (huN : (ax - ox) * dy - (ay - oy) * dx = uN)
    (hcross : ¬ |cross| < 1e-7)
    (ht : 0 ≤ tN / cross) (hu0 : 0 ≤ uN / cross) (hu1 : uN / cross ≤ 1) :
    (raySegmentIntersection ox oy dx dy ax ay bx by').isSome = true := by
  simp only [raySegmentIntersection]
  rw [hcrossEq, htN, huN, if_neg hcross, if_pos ⟨ht, hu0, hu1⟩]
  rfl

/-- The io loop's fold produces a hit whenever the accumulator already has
one or some remaining segment is hit by the ray. -/
lemma foldl_hit_isSome (ox oy dx dy : ℝ) :
    ∀ (segs : List ((ℝ × ℝ) × (ℝ × ℝ))) (acc : Option (ℝ × ℝ × ℝ)),
      (acc.isSome = true ∨ ∃ s ∈ segs,
        (raySegmentIntersection ox oy dx dy s.1.1 s.1.2 s.2.1 s.2.2).isSome = true) →
      (segs.foldl
        (fun best s =>
          match raySegmentIntersection ox oy dx dy s.1.1 s.1.2 s.2.1 s.2.2 with
          | some hit =>
            match best with
            | none => some hit
            | some b => if hit.2.2 < b.2.2 then some hit else some b
          | none => best)
        acc).isSome = true := by
  intro segs
  induction segs with
  | nil =>
    intro acc h
    rcases h with h | ⟨s, hs, -⟩
    · simpa using h
    · simp at hs
  | cons a l ih =>
    intro acc h
    rw [List.foldl_cons]
    apply ih
    rcases h with hacc | ⟨s, hs, hsome⟩
    · left
      cases hray : raySegmentIntersection ox oy dx dy a.1.1 a.1.2 a.2.1 a.2.2 with
      | none => simp only [hray]; exact hacc
      | some hit =>
        cases acc with
        | none => simp [hray]
        | some b =>
          simp only [hray]
          split_ifs <;> rfl
    · rcases List.mem_cons.mp hs with rfl | hmem
      · left
        obtain ⟨hit, hray⟩ := Option.isSome_iff_exists.mp hsome
        cases acc with
        | none => simp [hray]
        | some b =>
          simp only [hray]
          split_ifs <;> rfl
      · right
        exact ⟨s, hmem, hsome⟩

/-- The io loop's fold only ever returns the accumulator or an actual
ray–segment intersection of one of the segments. -/
lemma foldl_hit_mem (ox oy dx dy : ℝ) :
    ∀ (segs : List ((ℝ × ℝ) × (ℝ × ℝ))) (acc : Option (ℝ × ℝ × ℝ)) (v : ℝ × ℝ × ℝ),
      segs.foldl
        (fun best s =>
          match raySegmentIntersection ox oy dx dy s.1.1 s.1.2 s.2.1 s.2.2 with
          | some hit =>
            match best with
            | none => some hit
            | some b => if hit.2.2 < b.2.2 then some hit else some b
          | none => best)
        acc = some v →
      acc = some v ∨ ∃ s ∈ segs,
        raySegmentIntersection ox oy dx dy s.1.1 s.1.2 s.2.1 s.2.2 = some v := by
  intro segs
  induction segs with
  | nil =>
    intro acc v h
    left
    simpa using h
  | cons a l ih =>
    intro acc v h
    rw [List.foldl_cons] at h
    rcases ih _ v h with hstep | ⟨s, hs, hsv⟩
    · cases hray : raySegmentIntersection ox oy dx dy a.1.1 a.1.2 a.2.1 a.2.2 with
      | none =>
        rw [hray] at hstep
        left
        exact hstep
      | some hit =>
        rw [hray] at hstep
        cases acc with
        | none =>
          right
          refine ⟨a, List.mem_cons_self a l, ?_⟩
          rw [hray]
          exact hstep
        | some b =>
          dsimp only at hstep
          split_ifs at hstep with hlt
          · right
            refine ⟨a, List.mem_cons_self a l, ?_⟩
            rw [hray]
            exact hstep
          · left
            exact hstep
    · right
      exact ⟨s, List.mem_cons_of_mem a hs, hsv⟩

/-- `bestHit` finds a hit whenever some segment is hit by the ray. -/
lemma bestHit_exists_isSome (ox oy dx dy : ℝ) (segs : List ((ℝ × ℝ) × (ℝ × ℝ)))
    (h : ∃ s ∈ segs,
      (raySegmentIntersection ox oy dx dy s.1.1 s.1.2 s.2.1 s.2.2).isSome = true) :
    (bestHit ox oy dx dy segs).isSome = true := by
  unfold bestHit
  exact foldl_hit_isSome ox oy dx dy segs none (Or.inr h)

/-- Whatever `bestHit` returns is a genuine ray–segment intersection of one
of the segments. -/
lemma bestHit_some_mem (ox oy dx dy : ℝ) (segs : List ((ℝ × ℝ) × (ℝ × ℝ)))
    (v : ℝ × ℝ × ℝ) (h : bestHit ox oy dx dy segs = some v) :
    ∃ s ∈ segs, raySegmentIntersection ox oy dx dy s.1.1 s.1.2 s.2.1 s.2.2 = some v := by
  unfold bestHit at h
  rcases foldl_hit_mem ox oy dx dy segs none v h with hacc | hmem
  · exact absurd hacc (by simp)
  · exact hmem

/-- Whenever some io segment is hit by the (normalised) direction ray, the
io boundary point lies on one of the four quadrilateral segments. -/
lemma onOutline_io (n : FlowNode ℝ) (htype : n.type = FlowNodeType.io) (dx dy : ℝ)
    (hhit : ∃ s ∈ ioSegs n,
      (raySegmentIntersection n.x n.y dx dy s.1.1 s.1.2 s.2.1 s.2.2).isSome = true) :
    onOutline n (boundaryCore n dx dy) := by
  have hsome := bestHit_exists_isSome n.x n.y dx dy (ioSegs n) hhit
  obtain ⟨v, hv⟩ := Option.isSome_iff_exists.mp hsome
  obtain ⟨s, hs, hsv⟩ := bestHit_some_mem n.x n.y dx dy (ioSegs n) v hv
  obtain ⟨px, py, t⟩ := v
  obtain ⟨u, hu0, hu1, hx, hy⟩ :=
    raySeg_on_segment n.x n.y dx dy s.1.1 s.1.2 s.2.1 s.2.2 px py t hsv
  simp only [boundaryCore, htype]
  rw [hv]
  simp only [onOutline, htype]
  exact ⟨s, hs, u, hu0, hu1, hx, hy⟩

/-- Due right (direction `(1,0)`): some io segment is hit, provided the
height clears the `1e-7` parallel guard (one of the two slanted sides,
depending on whether the half-width reaches the slant constant `10`). -/
lemma io_hit_right (n : FlowNode ℝ) (hw : 0 < n.width) (hh7 : 1e-7 ≤ n.height) :
    ∃ s ∈ ioSegs n,
      (raySegmentIntersection n.x n.y 1 0 s.1.1 s.1.2 s.2.1 s.2.2).isSome = true := by
  have hh0 : (0:ℝ) < n.height := by linarith
  by_cases hcase : 10 ≤ n.width / 2
  · refine ⟨((n.x + n.width/2, n.y - n.height/2),
      (n.x + n.width/2 - 20, n.y + n.height/2)), by simp [ioSegs], ?_⟩
    dsimp only
    refine raySeg_isSome _ _ _ _ _ _ _ _ n.height (n.height * (n.width/2 - 10))
      (n.height/2) (by ring) (by ring) (by ring) ?_ ?_ ?_ ?_
    · rw [abs_of_pos hh0]
      exact not_lt.mpr hh7
    · rw [mul_div_cancel_left₀ _ (ne_of_gt hh0)]
      linarith
    · positivity
    · rw [div_le_one hh0]
      linarith
  · refine ⟨((n.x - n.width/2, n.y + n.height/2),
      (n.x - n.width/2 + 20, n.y - n.height/2)), by simp [ioSegs], ?_⟩
    dsimp only
    refine raySeg_isSome _ _ _ _ _ _ _ _ (-n.height) (-(n.height * (10 - n.width/2)))
      (-(n.height/2)) (by ring) (by ring) (by ring) ?_ ?_ ?_ ?_
    · rw [abs_neg, abs_of_pos hh0]
      exact not_lt.mpr hh7
    · rw [neg_div_neg_eq, mul_div_cancel_left₀ _ (ne_of_gt hh0)]
      linarith
    · rw [neg_div_neg_eq]
      positivity
    · rw [neg_div_neg_eq, div_le_one hh0]
      linarith

/-- Due left (direction `(-1,0)`): some io segment is hit, provided the
height clears the `1e-7` parallel guard. -/
lemma io_hit_left (n : FlowNode ℝ) (hh7 : 1e-7 ≤ n.height) :
    ∃ s ∈ ioSegs n,
      (raySegmentIntersection n.x n.y (-1) 0 s.1.1 s.1.2 s.2.1 s.2.2).isSome = true := by
  have hh0 : (0:ℝ) < n.height := by linarith
  by_cases hcase : 10 ≤ n.width / 2
  · refine ⟨((n.x - n.width/2, n.y + n.height/2),
      (n.x - n.width/2 + 20, n.y - n.height/2)), by simp [ioSegs], ?_⟩
    dsimp only
    refine raySeg_isSome _ _ _ _ _ _ _ _ n.height (n.height * (n.width/2 - 10))
      (n.height/2) (by ring) (by ring) (by ring) ?_ ?_ ?_ ?_
    · rw [abs_of_pos hh0]
      exact not_lt.mpr hh7
    · rw [mul_div_cancel_left₀ _ (ne_of_gt hh0)]
      linarith
    · positivity
    · rw [div_le_one hh0]
      linarith
  · refine ⟨((n.x + n.width/2, n.y - n.height/2),
      (n.x + n.width/2 - 20, n.y + n.height/2)), by simp [ioSegs], ?_⟩
    dsimp only
    refine raySeg_isSome _ _ _ _ _ _ _ _ (-n.height) (-(n.height * (10 - n.width/2)))
      (-(n.height/2)) (by ring) (by ring) (by ring) ?_ ?_ ?_ ?_
    · rw [abs_neg, abs_of_pos hh0]
      exact not_lt.mpr hh7
    · rw [neg_div_neg_eq, mul_div_cancel_left₀ _ (ne_of_gt hh0)]
      linarith
    · rw [neg_div_neg_eq]
      positivity
    · rw [neg_div_neg_eq, div_le_one hh0]
      linarith

/-- Due up (direction `(0,-1)`): some io segment is always hit for positive
sizes (a slanted side for narrow shapes, the top side otherwise); the
relevant cross products are `±20` or `width - 20 > 20`, so the parallel
guard never interferes. -/
lemma io_hit_up (n : FlowNode ℝ) (hw : 0 < n.width) (hh : 0 < n.height) :
    ∃ s ∈ ioSegs n,
      (raySegmentIntersection n.x n.y 0 (-1) s.1.1 s.1.2 s.2.1 s.2.2).isSome = true := by
  by_cases h10 : n.width / 2 ≤ 10
  · refine ⟨((n.x + n.width/2, n.y - n.height/2),
      (n.x + n.width/2 - 20, n.y + n.height/2)), by simp [ioSegs], ?_⟩
    dsimp only
    refine raySeg_isSome _ _ _ _ _ _ _ _ (-20) ((-20) * (n.height * (10 - n.width/2) / 20))
      ((-20) * (n.width/40)) (by ring) (by ring) (by ring) ?_ ?_ ?_ ?_
    · norm_num
    · rw [mul_div_cancel_left₀ _ (by norm_num : (-20:ℝ) ≠ 0)]
      exact div_nonneg (mul_nonneg hh.le (by linarith)) (by norm_num)
    · rw [mul_div_cancel_left₀ _ (by norm_num : (-20:ℝ) ≠ 0)]
      positivity
    · rw [mul_div_cancel_left₀ _ (by norm_num : (-20:ℝ) ≠ 0),
        div_le_one (by norm_num : (0:ℝ) < 40)]
      linarith
  · by_cases h20 : n.width / 2 ≤ 20
    · refine ⟨((n.x - n.width/2, n.y + n.height/2),
        (n.x - n.width/2 + 20, n.y - n.height/2)), by simp [ioSegs], ?_⟩
      dsimp only
      refine raySeg_isSome _ _ _ _ _ _ _ _ 20 (20 * (n.height * (n.width/2 - 10) / 20))
        (20 * (n.width/40)) (by ring) (by ring) (by ring) ?_ ?_ ?_ ?_
      · norm_num
      · rw [mul_div_cancel_left₀ _ (by norm_num : (20:ℝ) ≠ 0)]
        exact div_nonneg (mul_nonneg hh.le (by linarith)) (by norm_num)
      · rw [mul_div_cancel_left₀ _ (by norm_num : (20:ℝ) ≠ 0)]
        positivity
      · rw [mul_div_cancel_left₀ _ (by norm_num : (20:ℝ) ≠ 0),
          div_le_one (by norm_num : (0:ℝ) < 40)]
        linarith
    · refine ⟨((n.x - n.width/2 + 20, n.y - n.height/2),
        (n.x + n.width/2, n.y - n.height/2)), by simp [ioSegs], ?_⟩
      dsimp only
      refine raySeg_isSome _ _ _ _ _ _ _ _ (n.width - 20)
        ((n.width - 20) * (n.height/2)) (n.width/2 - 20)
        (by ring) (by ring) (by ring) ?_ ?_ ?_ ?_
      · rw [abs_of_pos (by linarith)]
        exact not_lt.mpr (by linarith)
      · rw [mul_div_cancel_left₀ _ (ne_of_gt (show (0:ℝ) < n.width - 20 by linarith))]
        positivity
      · exact div_nonneg (by linarith) (by linarith)
      · rw [div_le_one (by linarith)]
        linarith

/-- Due down (direction `(0,1)`): some io segment is always hit for
positive sizes. -/
lemma io_hit_down (n : FlowNode ℝ) (hw : 0 < n.width) (hh : 0 < n.height) :
    ∃ s ∈ ioSegs n,
      (raySegmentIntersection n.x n.y 0 1 s.1.1 s.1.2 s.2.1 s.2.2).isSome = true := by
  by_cases h10 : n.width / 2 ≤ 10
  · refine ⟨((n.x - n.width/2, n.y + n.height/2),
      (n.x - n.width/2 + 20, n.y - n.height/2)), by simp [ioSegs], ?_⟩
    dsimp only
    refine raySeg_isSome _ _ _ _ _ _ _ _ (-20) ((-20) * (n.height * (10 - n.width/2) / 20))
      ((-20) * (n.width/40)) (by ring) (by ring) (by ring) ?_ ?_ ?_ ?_
    · norm_num
    · rw [mul_div_cancel_left₀ _ (by norm_num : (-20:ℝ) ≠ 0)]
      exact div_nonneg (mul_nonneg hh.le (by linarith)) (by norm_num)
    · rw [mul_div_cancel_left₀ _ (by norm_num : (-20:ℝ) ≠ 0)]
      positivity
    · rw [mul_div_cancel_left₀ _ (by norm_num : (-20:ℝ) ≠ 0),
        div_le_one (by norm_num : (0:ℝ) < 40)]
      linarith
  · by_cases h20 : n.width / 2 ≤ 20
    · refine ⟨((n.x + n.width/2, n.y - n.height/2),
        (n.x + n.width/2 - 20, n.y + n.height/2)), by simp [ioSegs], ?_⟩
      dsimp only
      refine raySeg_isSome _ _ _ _ _ _ _ _ 20 (20 * (n.height * (n.width/2 - 10) / 20))
        (20 * (n.width/40)) (by ring) (by ring) (by ring) ?_ ?_ ?_ ?_
      · norm_num
      · rw [mul_div_cancel_left₀ _ (by norm_num : (20:ℝ) ≠ 0)]
        exact div_nonneg (mul_nonneg hh.le (by linarith)) (by norm_num)
      · rw [mul_div_cancel_left₀ _ (by norm_num : (20:ℝ) ≠ 0)]
        positivity
      · rw [mul_div_cancel_left₀ _ (by norm_num : (20:ℝ) ≠ 0),
          div_le_one (by norm_num : (0:ℝ) < 40)]
        linarith
    · refine ⟨((n.x + n.width/2 - 20, n.y + n.height/2),
        (n.x - n.width/2, n.y + n.height/2)), by simp [ioSegs], ?_⟩
      dsimp only
      refine raySeg_isSome _ _ _ _ _ _ _ _ (n.width - 20)
        ((n.width - 20) * (n.height/2)) (n.width/2 - 20)
        (by ring) (by ring) (by ring) ?_ ?_ ?_ ?_
      · rw [abs_of_pos (by linarith)]
        exact not_lt.mpr (by linarith)
      · rw [mul_div_cancel_left₀ _ (ne_of_gt (show (0:ℝ) < n.width - 20 by linarith))]
        positivity
      · exact div_nonneg (by linarith) (by linarith)
      · rw [div_le_one (by linarith)]
        linarith

/-- For a target at distance `c ≥ 1e-6` due right/left/down/up of the
centre, `nodeBoundaryPoint` normalises to the four cardinal unit
directions. -/
lemma nodeBoundaryPoint_dirs (n : FlowNode ℝ) (c : ℝ) (hc : 1e-6 ≤ c) :
    nodeBoundaryPoint n (n.x + c) n.y = boundaryCore n 1 0 ∧
    nodeBoundaryPoint n (n.x - c) n.y = boundaryCore n (-1) 0 ∧
    nodeBoundaryPoint n n.x (n.y + c) = boundaryCore n 0 1 ∧
    nodeBoundaryPoint n n.x (n.y - c) = boundaryCore n 0 (-1) := by
  have hc0 : (0:ℝ) < c := lt_of_lt_of_le (by norm_num) hc
  have hcne : c ≠ 0 := ne_of_gt hc0
  refine ⟨?_, ?_, ?_, ?_⟩
  · simp only [nodeBoundaryPoint]
    rw [show n.x + c - n.x = c by ring, show n.y - n.y = (0:ℝ) by ring, hypot_left,
      abs_of_pos hc0, if_neg (by linarith), div_self hcne, zero_div]
  · simp only [nodeBoundaryPoint]
    rw [show n.x - c - n.x = -c by ring, show n.y - n.y = (0:ℝ) by ring, hypot_left,
      abs_neg, abs_of_pos hc0, if_neg (by linarith), neg_div, div_self hcne, zero_div]
  · simp only [nodeBoundaryPoint]
    rw [show n.x - n.x = (0:ℝ) by ring, show n.y + c - n.y = c by ring, hypot_right,
      abs_of_pos hc0, if_neg (by linarith), div_self hcne, zero_div]
  · simp only [nodeBoundaryPoint]
    rw [show n.x - n.x = (0:ℝ) by ring, show n.y - c - n.y = -c by ring, hypot_right,
      abs_neg, abs_of_pos hc0, if_neg (by linarith), neg_div, div_self hcne, zero_div]

/-- The start/end ellipse boundary point satisfies the ellipse equation for
every nonzero direction. -/
lemma onOutline_ellipse (n : FlowNode ℝ)
    (htype : n.type = FlowNodeType.start ∨ n.type = FlowNodeType.«end»)
    (hw : 0 < n.width) (hh : 0 < n.height) (dx dy : ℝ) (hne : dx ≠ 0 ∨ dy ≠ 0) :
    onOutline n (boundaryCore n dx dy) := by
  have hw2 : (0:ℝ) < n.width / 2 := by linarith
  have hh2 : (0:ℝ) < n.height / 2 := by linarith
  have hd : 0 < dx * dx / (n.width / 2 * (n.width / 2)) +
      dy * dy / (n.height / 2 * (n.height / 2)) := by
    rcases hne with h | h
    · have h1 : 0 < dx * dx / (n.width / 2 * (n.width / 2)) :=
        div_pos (mul_self_pos.mpr h) (mul_pos hw2 hw2)
      have h2 : 0 ≤ dy * dy / (n.height / 2 * (n.height / 2)) :=
        div_nonneg (mul_self_nonneg dy) (mul_pos hh2 hh2).le
      linarith
    · have h1 : 0 < dy * dy / (n.height / 2 * (n.height / 2)) :=
        div_pos (mul_self_pos.mpr h) (mul_pos hh2 hh2)
      have h2 : 0 ≤ dx * dx / (n.width / 2 * (n.width / 2)) :=
        div_nonneg (mul_self_nonneg dx) (mul_pos hw2 hw2).le
      linarith
  have hsd : Real.sqrt (dx * dx / (n.width / 2 * (n.width / 2)) +
      dy * dy / (n.height / 2 * (n.height / 2))) ≠ 0 :=
    ne_of_gt (Real.sqrt_pos.mpr hd)
  have hsq : Real.sqrt (dx * dx / (n.width / 2 * (n.width / 2)) +
      dy * dy / (n.height / 2 * (n.height / 2))) ^ 2 =
      dx * dx / (n.width / 2 * (n.width / 2)) +
      dy * dy / (n.height / 2 * (n.height / 2)) := Real.sq_sqrt (le_of_lt hd)
  have ht3 : (1 / Real.sqrt (dx * dx / (n.width / 2 * (n.width / 2)) +
      dy * dy / (n.height / 2 * (n.height / 2)))) ^ 2 *
      (dx * dx / (n.width / 2 * (n.width / 2)) +
       dy * dy / (n.height / 2 * (n.height / 2))) = 1 := by
    rw [one_div, inv_pow, hsq]
    exact inv_mul_cancel₀ (ne_of_gt hd)
  rcases htype with ht | ht <;>
  · simp only [boundaryCore, ht]
    rw [if_pos hd]
    simp only [onOutline, ht]
    linear_combination ht3

/-- The decision diamond boundary point satisfies the L1 diamond equation
for every nonzero direction. -/
lemma onOutline_diamond (n : FlowNode ℝ) (htype : n.type = FlowNodeType.decision)
    (hw : 0 < n.width) (hh : 0 < n.height) (dx dy : ℝ) (hne : dx ≠ 0 ∨ dy ≠ 0) :
    onOutline n (boundaryCore n dx dy) := by
  have hw2 : (0:ℝ) < n.width / 2 := by linarith
  have hh2 : (0:ℝ) < n.height / 2 := by linarith
  have hd : 0 < |dx| / (n.width / 2) + |dy| / (n.height / 2) := by
    rcases hne with h | h
    · have h1 : 0 < |dx| / (n.width / 2) := div_pos (abs_pos.mpr h) hw2
      have h2 : 0 ≤ |dy| / (n.height / 2) := div_nonneg (abs_nonneg dy) hh2.le
      linarith
    · have h1 : 0 < |dy| / (n.height / 2) := div_pos (abs_pos.mpr h) hh2
      have h2 : 0 ≤ |dx| / (n.width / 2) := div_nonneg (abs_nonneg dx) hw2.le
      linarith
  have hdd : (1 / (|dx| / (n.width / 2) + |dy| / (n.height / 2))) *
      (|dx| / (n.width / 2) + |dy| / (n.height / 2)) = 1 :=
    one_div_mul_cancel (ne_of_gt hd)
  simp only [boundaryCore, htype]
  rw [if_pos hd]
  simp only [onOutline, htype]
  rw [show n.x + dx * (1 / (|dx| / (n.width / 2) + |dy| / (n.height / 2))) - n.x =
      dx * (1 / (|dx| / (n.width / 2) + |dy| / (n.height / 2))) by ring,
    show n.y + dy * (1 / (|dx| / (n.width / 2) + |dy| / (n.height / 2))) - n.y =
      dy * (1 / (|dx| / (n.width / 2) + |dy| / (n.height / 2))) by ring,
    abs_mul, abs_mul, abs_of_pos (one_div_pos.mpr hd)]
  linear_combination hdd

/-- The process rectangle boundary point lies on the rectangle boundary for
each of the four cardinal directions. -/
lemma onOutline_rect (n : FlowNode ℝ) (htype : n.type = FlowNodeType.process)
    (hw : 0 < n.width) (hh : 0 < n.height) :
    onOutline n (boundaryCore n 1 0) ∧ onOutline n (boundaryCore n (-1) 0) ∧
    onOutline n (boundaryCore n 0 1) ∧ onOutline n (boundaryCore n 0 (-1)) := by
  have hw2 : (0:ℝ) < n.width / 2 := by linarith
  have hh2 : (0:ℝ) < n.height / 2 := by linarith
  refine ⟨?_, ?_, ?_, ?_⟩
  · have h1 : rectPoint n 1 0 = (n.x + n.width / 2, n.y) := by
      simp only [rectPoint]
      norm_num
    simp only [boundaryCore, htype]
    rw [h1]
    simp only [onOutline, htype]
    left
    rw [show n.x + n.width / 2 - n.x = n.width / 2 by ring, abs_of_pos hw2]
  · have h1 : rectPoint n (-1) 0 = (n.x - n.width / 2, n.y) := by
      simp only [rectPoint]
      norm_num
      ring
    simp only [boundaryCore, htype]
    rw [h1]
    simp only [onOutline, htype]
    left
    rw [show n.x - n.width / 2 - n.x = -(n.width / 2) by ring, abs_neg, abs_of_pos hw2]
  · have h1 : rectPoint n 0 1 = (n.x, n.y + n.height / 2) := by
      simp only [rectPoint]
      norm_num
    simp only [boundaryCore, htype]
    rw [h1]
    simp only [onOutline, htype]
    right
    rw [show n.y + n.height / 2 - n.y = n.height / 2 by ring, abs_of_pos hh2]
  · have h1 : rectPoint n 0 (-1) = (n.x, n.y - n.height / 2) := by
      simp only [rectPoint]
      norm_num
      ring
    simp only [boundaryCore, htype]
    rw [h1]
    simp only [onOutline, htype]
    right
    rw [show n.y - n.height / 2 - n.y = -(n.height / 2) by ring, abs_neg, abs_of_pos hh2]

/-- Claim C1 (amended): for every node with `width, height > 0` and a
target point at distance ≥ 1e-6 due right, left, down or up of the centre,
the point returned by `nodeBoundaryPoint` lies exactly on that kind's
analytic outline — ellipse equation for start/end, L1 diamond equation for
decision, rectangle boundary for process, and one of the four
quadrilateral segments for io.  The vertical directions hold
unconditionally for every kind (for io the slant cross products are `±20`
or `width - 20 > 20`, so the parallel guard never interferes); the
horizontal directions additionally require `height ≥ 1e-7` for io (the
ray–segment parallel-guard threshold; below it the io ray cast misses the
slanted sides and falls back to the rectangle point, which is off the
quadrilateral). -/
theorem claim_C1 (n : FlowNode ℝ) (c : ℝ) (hw : 0 < n.width) (hh : 0 < n.height)
    (hc : 1e-6 ≤ c) :
    onOutline n (nodeBoundaryPoint n n.x (n.y + c)) ∧
    onOutline n (nodeBoundaryPoint n n.x (n.y - c)) ∧
    ((n.type = FlowNodeType.io → 1e-7 ≤ n.height) →
      onOutline n (nodeBoundaryPoint n (n.x + c) n.y) ∧
      onOutline n (nodeBoundaryPoint n (n.x - c) n.y)) := by
  obtain ⟨d1, d2, d3, d4⟩ := nodeBoundaryPoint_dirs n c hc
  rw [d1, d2, d3, d4]
  cases htype : n.type with
  | start =>
    exact ⟨onOutline_ellipse n (Or.inl htype) hw hh 0 1 (Or.inr one_ne_zero),
      onOutline_ellipse n (Or.inl htype) hw hh 0 (-1) (Or.inr (by norm_num)),
      fun _ => ⟨onOutline_ellipse n (Or.inl htype) hw hh 1 0 (Or.inl one_ne_zero),
        onOutline_ellipse n (Or.inl htype) hw hh (-1) 0 (Or.inl (by norm_num))⟩⟩
  | «end» =>
    exact ⟨onOutline_ellipse n (Or.inr htype) hw hh 0 1 (Or.inr one_ne_zero),
      onOutline_ellipse n (Or.inr htype) hw hh 0 (-1) (Or.inr (by norm_num)),
      fun _ => ⟨onOutline_ellipse n (Or.inr htype) hw hh 1 0 (Or.inl one_ne_zero),
        onOutline_ellipse n (Or.inr htype) hw hh (-1) 0 (Or.inl (by norm_num))⟩⟩
  | decision =>
    exact ⟨onOutline_diamond n htype hw hh 0 1 (Or.inr one_ne_zero),
      onOutline_diamond n htype hw hh 0 (-1) (Or.inr (by norm_num)),
      fun _ => ⟨onOutline_diamond n htype hw hh 1 0 (Or.inl one_ne_zero),
        onOutline_diamond n htype hw hh (-1) 0 (Or.inl (by norm_num))⟩⟩
  | process =>
    obtain ⟨r1, r2, r3, r4⟩ := onOutline_rect n htype hw hh
    exact ⟨r3, r4, fun _ => ⟨r1, r2⟩⟩
  | io =>
    exact ⟨onOutline_io n htype 0 1 (io_hit_down n hw hh),
      onOutline_io n htype 0 (-1) (io_hit_up n hw hh),
      fun hio => ⟨onOutline_io n htype 1 0 (io_hit_right n hw (hio rfl)),
        onOutline_io n htype (-1) 0 (io_hit_left n (hio rfl))⟩⟩

/-- On the degenerate io node the due-right boundary query falls through to
the rectangle point `(75, 0)`. -/
lemma tinyIo_rect_fallback :
    nodeBoundaryPoint tinyIoNode (tinyIoNode.x + 10) tinyIoNode.y = (75, 0) := by
  have h1 := (nodeBoundaryPoint_dirs tinyIoNode 10 (by norm_num)).1
  rw [h1]
  simp only [boundaryCore, show tinyIoNode.type = FlowNodeType.io from rfl]
  rw [tinyIo_bestHit]
  simp only [rectPoint]
  norm_num [tinyIoNode, Prod.ext_iff]

/-- Counterexample to the unamended claim C1: an io node with positive
width and height (but height `1e-8`, below the `1e-7` parallel guard) whose
due-right boundary point `(75, 0)` misses all four quadrilateral segments
by 10 units. -/
theorem claim_C1_counterexample :
    tinyIoNode.type = FlowNodeType.io ∧
    0 < tinyIoNode.width ∧ 0 < tinyIoNode.height ∧ (1e-6 : ℝ) ≤ 10 ∧
    ¬ onOutline tinyIoNode
      (nodeBoundaryPoint tinyIoNode (tinyIoNode.x + 10) tinyIoNode.y) := by
  refine ⟨rfl, by norm_num [tinyIoNode], by norm_num [tinyIoNode], by norm_num, ?_⟩
  rw [tinyIo_rect_fallback]
  simp only [onOutline, show tinyIoNode.type = FlowNodeType.io from rfl, onIoSeg]
  rw [tinyIo_segs]
  rintro ⟨s, hs, u, hu0, hu1, hx, hy⟩
  simp only [List.mem_cons, List.not_mem_nil, or_false] at hs
  rcases hs with rfl | rfl | rfl | rfl
  · dsimp only at hy
    norm_num at hy
  · dsimp only at hx hy
    norm_num at hx hy
    linarith
  · dsimp only at hy
    norm_num at hy
  · dsimp only at hx
    norm_num at hx
    linarith

/-- A well-sized io node for exercising the boundary-point theorem. -/
def c1NodeW : FlowNode ℝ :=
  { id := "io2", type := FlowNodeType.io, text := "", x := 0, y := 0,
    width := 40, height := 20 }

theorem claim_C1_witness :
    (0:ℝ) < c1NodeW.width ∧ (0:ℝ) < c1NodeW.height ∧ ((1e-6:ℝ) ≤ 5) ∧
    (onOutline c1NodeW (nodeBoundaryPoint c1NodeW c1NodeW.x (c1NodeW.y + 5)) ∧
     onOutline c1NodeW (nodeBoundaryPoint c1NodeW c1NodeW.x (c1NodeW.y - 5)) ∧
     ((c1NodeW.type = FlowNodeType.io → (1e-7:ℝ) ≤ c1NodeW.height) →
       onOutline c1NodeW (nodeBoundaryPoint c1NodeW (c1NodeW.x + 5) c1NodeW.y) ∧
       onOutline c1NodeW (nodeBoundaryPoint c1NodeW (c1NodeW.x - 5) c1NodeW.y))) :=
  ⟨by norm_num [c1NodeW], by norm_num [c1NodeW], by norm_num,
   claim_C1 c1NodeW 5 (by norm_num [c1NodeW]) (by norm_num [c1NodeW]) (by norm_num)⟩
